import Mathlib

/-!
Verification of the AWX instance-group / team synchronizer (src/main.py).

The script is shallowly embedded as pure Lean functions over an explicit
remote-controller state.  HTTP GETs are modelled as reads of that state,
mutating POSTs are recorded in a trace and applied to the state, and
Python runtime failures (NameError, subscripting None, KeyError,
raise_for_status on a failed request) are modelled as values of an error
type, so every function is total and executable.
-/

namespace AwxSync

/-- An instance group as fetched from the controller: a pair of id and name
(the only fields the script reads). -/
structure IGroup where
  id : Nat
  name : String
  deriving DecidableEq, Repr

/-- An object role (for example "Use" on an instance group or "Member" on a
team): id plus name. -/
structure RoleObj where
  id : Nat
  name : String
  deriving DecidableEq, Repr

/-- An organization: id plus name. -/
structure OrgObj where
  id : Nat
  name : String
  deriving DecidableEq, Repr

/-- A team: id, name and owning organization id (the fields the script reads
or sends). -/
structure TeamObj where
  id : Nat
  name : String
  organization : Nat
  deriving DecidableEq, Repr

/-- The remote controller state, as observable through the endpoints the
script queries.  Users are represented by their numeric ids (the script only
reads ids, usernames being used for logging alone).
`roleHolders r` is the list served by `GET roles/r/users` — the users holding
role `r` directly; `GET teams/t/users` is served from the holders of `t`'s
Member object-role. -/
structure RemoteState where
  igs : List IGroup
  igObjectRoles : Nat → List RoleObj
  teams : List TeamObj
  teamObjectRoles : Nat → List RoleObj
  roleHolders : Nat → List Nat
  orgs : List OrgObj
  orgRoleUsers : Nat → String → List Nat
  nextTeamId : Nat

/-- Errors that abort a run: Python NameErrors from the two defective
disassociation payloads, subscripting a `None` lookup result, a missing
dictionary key, a rejected or failed HTTP request, and the explicit
`exit(1)` on a missing parent organization. -/
inductive Err where
  | nameErrorDisassociate
  | nameErrorUserId
  | noneSubscript
  | keyError
  | badRequest
  | httpError (url : String)
  | parentOrgNotFound
  deriving DecidableEq, Repr

/-- A mutating call sent to the controller.  GET requests are not recorded:
the spec's "mutating calls" are the POSTs. -/
inductive Call where
  | createTeam (name : String) (orgId : Nat)
  | teamRoleAssoc (teamId : Nat) (roleId : Option Nat)
  | userRoleAssoc (userId : Nat) (roleId : Option Nat)
  | userRoleDisassoc (userId : Nat) (roleId : Option Nat)
  deriving DecidableEq, Repr

abbrev Trace := List Call

/-- The registry built by the first phase: `team_map` in the source,
a Python dict from team name to team object (insertion ordered). -/
abbrev TeamMap := List (String × TeamObj)

/-- `allowed_users_per_ig` in the source: team name ↦ (team id, accumulated
user-id list). -/
abbrev AllowedMap := List (String × Nat × List Nat)

/-- Resolution of the "Use" object-role id of instance group `igid`
(src/main.py lines 257-261): first role named "Use", `None` when absent. -/
def useRidOf (s : RemoteState) (igid : Nat) : Option Nat :=
  ((s.igObjectRoles igid).find? (fun r => decide (r.name = "Use"))).map (fun r => r.id)

/-- Resolution of the "Member" object-role id of team `tid`
(src/main.py lines 416-420): first role named "Member", `None` when absent. -/
def memberRidOf (s : RemoteState) (tid : Nat) : Option Nat :=
  ((s.teamObjectRoles tid).find? (fun r => decide (r.name = "Member"))).map (fun r => r.id)

/-- The list served by `GET teams/{tid}/users`: the holders of the team's
Member role (empty for a team without one). -/
def teamUsersOf (s : RemoteState) (tid : Nat) : List Nat :=
  match memberRidOf s tid with
  | some r => s.roleHolders r
  | none => []

/-- Name of the organization with id `oid`, as the server resolves the
`organization__name__exact` filter. -/
def orgNameOf (orgs : List OrgObj) (oid : Nat) : Option String :=
  (orgs.find? (fun o => decide (o.id = oid))).map (fun o => o.name)

/-- The team lookup of src/main.py lines 298-304 / 321-327:
`name__exact={tn}&order_by=name&organization__name__exact={parentName}` with
`page_size=1`, i.e. the first team matching both filters in listing order. -/
def findTeam (teams : List TeamObj) (orgs : List OrgObj) (tn parentName : String) :
    Option TeamObj :=
  teams.find? (fun t => decide (t.name = tn ∧ orgNameOf orgs t.organization = some parentName))

/-- Effect of `POST teams/` (src/main.py lines 308-318): the server assigns a
fresh id to the created team. -/
def addTeam (s : RemoteState) (tn : String) (oid : Nat) : RemoteState :=
  { s with teams := s.teams ++ [⟨s.nextTeamId, tn, oid⟩], nextTeamId := s.nextTeamId + 1 }

/-- Effect of `POST users/{uid}/roles {"id": r}` on the served role-holder
lists (associating an already-held role is a server no-op). -/
def assocHolders (s : RemoteState) (uid r : Nat) : RemoteState :=
  { s with roleHolders := fun x =>
      if x = r then
        (if uid ∈ s.roleHolders r then s.roleHolders r else s.roleHolders r ++ [uid])
      else s.roleHolders x }

/-- Effect of `POST users/{uid}/roles {"id": r, "disassociate": true}`. -/
def disassocHolders (s : RemoteState) (uid r : Nat) : RemoteState :=
  { s with roleHolders := fun x =>
      if x = r then (s.roleHolders r).filter (fun u => decide (u ≠ uid))
      else s.roleHolders x }

/-- The cleanup step of src/main.py lines 266-296, given the resolved Use
role id.  With the id unresolved (`None`) the script issues
`GET roles/None/users`, a malformed URL the server rejects
(`raise_for_status`).  With a resolved id it lists the direct holders; the
loop body then evaluates the payload
`{"id": ig_use_role_id, disassociate: True}` (line 288) whose bare name
`disassociate` is undefined — a NameError as soon as there is one user to
remove, before any POST is issued. -/
def cleanupStep (s : RemoteState) (useRid : Option Nat) : Except Err Unit :=
  match useRid with
  | none => .error (.httpError "roles/None/users")
  | some rid =>
    match s.roleHolders rid with
    | [] => .ok ()
    | _ :: _ => .error .nameErrorDisassociate

/-- Find-or-create of the backing team, src/main.py lines 298-327: look up by
exact name and parent-organization name; when absent, create and look up
again.  The re-fetch result is subscripted (`team['id']`, line 333) without a
guard: a second `None` is a Python TypeError, modelled as `noneSubscript`. -/
def ensureTeam (s : RemoteState) (parentName : String) (pid : Nat) (tn : String) :
    Trace × Except Err (RemoteState × TeamObj) :=
  match findTeam s.teams s.orgs tn parentName with
  | some t => ([], .ok (s, t))
  | none =>
    let s1 := addTeam s tn pid
    match findTeam s1.teams s1.orgs tn parentName with
    | some t => ([.createTeam tn pid], .ok (s1, t))
    | none => ([.createTeam tn pid], .error .noneSubscript)

/-- Python dict assignment `team_map[team_name] = team`: replace the entry in
place when the key exists (dict keys are unique, so at most the first
occurrence), otherwise append. -/
def tmInsert : TeamMap → String → TeamObj → TeamMap
  | [], tn, t => [(tn, t)]
  | e :: tm, tn, t => if e.1 = tn then (tn, t) :: tm else e :: tmInsert tm tn t

/-- Processing of one retained instance group (body of the loop at
src/main.py lines 248-344): resolve the Use role, optionally clean up direct
grants, find-or-create the backing team, unconditionally POST the team's Use
grant (line 332 — note the POST is issued whether or not the role is already
held), and record the registry entry. -/
def processIG (cl : Bool) (pfx parentName : String) (pid : Nat)
    (s : RemoteState) (tm : TeamMap) (ig : IGroup) :
    Trace × Except Err (RemoteState × TeamMap) :=
  match (if cl then cleanupStep s (useRidOf s ig.id) else .ok ()) with
  | .error e => ([], .error e)
  | .ok _ =>
    match ensureTeam s parentName pid (pfx ++ ig.name) with
    | (tr, .error e) => (tr, .error e)
    | (tr, .ok (sA, team)) =>
      match useRidOf s ig.id with
      | none => (tr ++ [.teamRoleAssoc team.id none], .error .badRequest)
      | some rid =>
        (tr ++ [.teamRoleAssoc team.id (some rid)],
          .ok (sA, tmInsert tm (pfx ++ ig.name) team))

/-- The registry-building pass over all instance groups (src/main.py lines
247-344); groups named in the skip-list are ignored entirely (line 249). -/
def phase1 (cl : Bool) (pfx parentName : String) (pid : Nat) (skip : List String) :
    RemoteState → TeamMap → List IGroup → Trace × Except Err (RemoteState × TeamMap)
  | s, tm, [] => ([], .ok (s, tm))
  | s, tm, ig :: rest =>
    if ig.name ∈ skip then phase1 cl pfx parentName pid skip s tm rest
    else
      match processIG cl pfx parentName pid s tm ig with
      | (tr, .error e) => (tr, .error e)
      | (tr, .ok (sA, tmA)) =>
        let p := phase1 cl pfx parentName pid skip sA tmA rest
        (tr ++ p.1, p.2)

/-- `allowed_users_per_ig[team_name]` creation / extension, src/main.py lines
383-391: create the entry with the team object's id and an empty user list
when absent (dict keys unique, so at most the first occurrence is updated),
then extend the user list in place. -/
def alExtend : AllowedMap → String → Nat → List Nat → AllowedMap
  | [], tn, tid, us => [(tn, tid, us)]
  | e :: al, tn, tid, us =>
    if e.1 = tn then (e.1, e.2.1, e.2.2 ++ us) :: al
    else e :: alExtend al tn tid us

/-- `allowed_users_per_ig[team_name]` read access. -/
def alLookup (al : AllowedMap) (tn : String) : Option (Nat × List Nat) :=
  (al.find? (fun e => decide (e.1 = tn))).map (fun e => e.2)

/-- The inner loop of src/main.py lines 378-391: one (organization, role)
pair's user ids appended to one registry entry's list. -/
def phase2Team (us : List Nat) (al : AllowedMap) (e : String × TeamObj) : AllowedMap :=
  alExtend al e.1 e.2.id us

/-- One allowed role of one organization, pushed to every registry entry. -/
def phase2Role (f : Nat → String → List Nat) (tm : TeamMap) (oid : Nat)
    (al : AllowedMap) (r : String) : AllowedMap :=
  tm.foldl (phase2Team (f oid r)) al

/-- One organization: every allowed role pushed to every registry entry. -/
def phase2Org (f : Nat → String → List Nat) (roles : List String) (tm : TeamMap)
    (al : AllowedMap) (o : OrgObj) : AllowedMap :=
  roles.foldl (phase2Role f tm o.id) al

/-- The desired-membership accumulation (src/main.py lines 357-391): for
every organization and every allowed role, the role-holder ids are appended
to the user list of every team in the registry.  (The fetched
`organizations/{id}/instance_groups` collection of lines 370-375 is never
consulted — the accumulation is not filtered by the organization's
referenced instance groups.) -/
def phase2 (f : Nat → String → List Nat) (roles : List String) (tm : TeamMap)
    (orgs : List OrgObj) : AllowedMap :=
  orgs.foldl (phase2Org f roles tm) []

/-- The user-removal loop of src/main.py lines 423-439.  The POST of line 429
addresses `users/{user_id}/roles`, but `user_id` is not the loop variable
(`team_user` is): the f-string raises NameError when `user_id` is unbound,
and otherwise targets whatever value leaked from an earlier addition loop.
A resolved payload with `member_role_id = None` is rejected by the server. -/
def removeLoop (memberRid : Option Nat) (target : List Nat) :
    RemoteState → Option Nat → List Nat → List Nat →
    Trace × Except Err (RemoteState × List Nat)
  | s, _, cur, [] => ([], .ok (s, cur))
  | s, leaked, cur, tu :: rest =>
    if tu ∈ target then removeLoop memberRid target s leaked (cur ++ [tu]) rest
    else
      match leaked with
      | none => ([], .error .nameErrorUserId)
      | some uid =>
        match memberRid with
        | none => ([.userRoleDisassoc uid none], .error .badRequest)
        | some r =>
          let p := removeLoop memberRid target (disassocHolders s uid r) leaked cur rest
          (.userRoleDisassoc uid (some r) :: p.1, p.2)

/-- The user-addition loop of src/main.py lines 442-454; it (re)binds
`user_id` on every iteration, which is what the removal loop of a later team
can observe. -/
def addLoop (memberRid : Option Nat) (cur : List Nat) :
    RemoteState → List Nat → Trace × Except Err (RemoteState × Option Nat)
  | s, [] => ([], .ok (s, none))
  | s, uid :: rest =>
    if uid ∈ cur then
      match addLoop memberRid cur s rest with
      | (tr, .ok (s1, lk)) => (tr, .ok (s1, lk.orElse fun _ => some uid))
      | (tr, .error e) => (tr, .error e)
    else
      match memberRid with
      | none => ([.userRoleAssoc uid none], .error .badRequest)
      | some r =>
        match addLoop memberRid cur (assocHolders s uid r) rest with
        | (tr, .ok (s1, lk)) =>
          (.userRoleAssoc uid (some r) :: tr, .ok (s1, lk.orElse fun _ => some uid))
        | (tr, .error e) => (.userRoleAssoc uid (some r) :: tr, .error e)

/-- The reconciliation pass over the registry (src/main.py lines 396-454),
threading the Python variable `user_id` (`leaked`) across teams. -/
def phase3 (al : AllowedMap) :
    RemoteState → Option Nat → TeamMap → Trace × Except Err RemoteState
  | s, _, [] => ([], .ok s)
  | s, leaked, (tn, _) :: rest =>
    match alLookup al tn with
    | none => ([], .error .keyError)
    | some (tid, users) =>
      let fetched := teamUsersOf s tid
      let memberRid := memberRidOf s tid
      match removeLoop memberRid users s leaked [] fetched with
      | (tr, .error e) => (tr, .error e)
      | (tr, .ok (s1, cur)) =>
        match addLoop memberRid cur s1 users.dedup with
        | (tr2, .error e) => (tr ++ tr2, .error e)
        | (tr2, .ok (s2, lk2)) =>
          let p := phase3 al s2 (lk2.orElse fun _ => leaked) rest
          (tr ++ tr2 ++ p.1, p.2)

/-- The configuration surface of the `sync` command (src/main.py lines
168-205) that the reconciliation logic consumes, with the source defaults.
The comma-separated role and skip-list options are modelled after their
`split(",")` (lines 231 and 355); URL, token and TLS options are I/O
plumbing outside the model. -/
structure Config where
  teamPfx : String := "t-IG-USE-"
  parentOrganization : String := "ADMIN-AREA"
  allowedRoles : List String := ["admins"]
  skipList : List String := ["default", "controlplane"]
  cleanupUseRole : Bool := true

/-- One full run of `sync` (src/main.py lines 206-456): find the parent
organization (exit(1) when absent), build the registry, accumulate desired
membership, reconcile each team.  Returns the trace of mutating calls issued
before completion or failure, and the final state on success. -/
def sync (cfg : Config) (s0 : RemoteState) : Trace × Except Err RemoteState :=
  match s0.orgs.find? (fun o => decide (o.name = cfg.parentOrganization)) with
  | none => ([], .error .parentOrgNotFound)
  | some org =>
    match phase1 cfg.cleanupUseRole cfg.teamPfx cfg.parentOrganization org.id
        cfg.skipList s0 [] s0.igs with
    | (tr1, .error e) => (tr1, .error e)
    | (tr1, .ok (s1, tm)) =>
      let al := phase2 s1.orgRoleUsers cfg.allowedRoles tm s1.orgs
      match phase3 al s1 none tm with
      | (tr3, r) => (tr1 ++ tr3, r)

/-- Equality of all state components except the role-holder lists: what the
reconciliation pass (phase 3) leaves untouched. -/
def SameSkeleton (s s2 : RemoteState) : Prop :=
  s2.igs = s.igs ∧ s2.igObjectRoles = s.igObjectRoles ∧ s2.teams = s.teams
  ∧ s2.teamObjectRoles = s.teamObjectRoles ∧ s2.orgs = s.orgs
  ∧ s2.orgRoleUsers = s.orgRoleUsers ∧ s2.nextTeamId = s.nextTeamId

/-- What the registry-building pass (phase 1) can change: it only ever
appends freshly created teams, leaving every other component intact. -/
def Phase1Frame (s s2 : RemoteState) : Prop :=
  s2.igs = s.igs ∧ s2.igObjectRoles = s.igObjectRoles
  ∧ s2.teamObjectRoles = s.teamObjectRoles ∧ s2.orgs = s.orgs
  ∧ s2.orgRoleUsers = s.orgRoleUsers ∧ s2.roleHolders = s.roleHolders
  ∧ s.nextTeamId ≤ s2.nextTeamId
  ∧ ∃ ext, s2.teams = s.teams ++ ext ∧ ∀ t ∈ ext, s.nextTeamId ≤ t.id

/-- Well-formedness of a remote controller state: team ids are unique and
below the server's id counter, and object roles identify their owning
entity — a real controller never shares a Member role between two teams nor
a role id between an instance group's Use role and a team's Member role. -/
structure WF (s : RemoteState) : Prop where
  teamIdsNodup : (s.teams.map TeamObj.id).Nodup
  teamIdsLt : ∀ t ∈ s.teams, t.id < s.nextTeamId
  memberInj : ∀ tid1 tid2 r, memberRidOf s tid1 = some r → memberRidOf s tid2 = some r →
    tid1 = tid2
  useMemberDisjoint : ∀ igid tid r, useRidOf s igid = some r → memberRidOf s tid ≠ some r

/-- URL built by `_controller_find_first_entity` (src/main.py line 110). -/
def controller_find_first_entity_url (base entity query : String) : String :=
  base ++ "/api/v2/" ++ entity ++ "/?page_size=1&page=1&" ++ query

/-- A paginated listing response body: reported total count and the page's
results (`next` is not read by the single-page lookup). -/
structure ApiPage (α : Type) where
  count : Nat
  results : List α

/-- Result mapping of `_controller_find_first_entity` (src/main.py lines
117-120): `None` when the reported count is zero, else `results[0]`
(an IndexError — modelled as an error — when the results list is empty
despite a non-zero count). -/
def controller_find_first_entity {α : Type} (page : ApiPage α) : Except Err (Option α) :=
  if page.count = 0 then .ok none
  else
    match page.results with
    | [] => .error .badRequest
    | e :: _ => .ok (some e)

/-! ### Concrete remote fixtures used to settle the scenario claims. -/

/-- A converged remote: one retained instance group "east" (Use role 40),
its backing team already present (id 1, Member role 50) under parent
organization "ADMIN-AREA", membership {100} already matching the desired
set coming from org-a's single admin 100. -/
def stateConverged : RemoteState where
  igs := [⟨3, "east"⟩]
  igObjectRoles := fun i => if i = 3 then [⟨40, "Use"⟩] else []
  teams := [⟨1, "t-IG-USE-east", 7⟩]
  teamObjectRoles := fun t => if t = 1 then [⟨50, "Member"⟩] else []
  roleHolders := fun r => if r = 50 then [100] else []
  orgs := [⟨7, "ADMIN-AREA"⟩, ⟨10, "org-a"⟩]
  orgRoleUsers := fun o r => if o = 10 ∧ r = "admins" then [100] else []
  nextTeamId := 2

/-- The convergent-removal fixture: team membership {100, 101, 102} while the
desired membership derived from org-a's admins is {100, 101}. -/
def stateStaleMember : RemoteState :=
  { stateConverged with
    roleHolders := fun r => if r = 50 then [100, 101, 102] else []
    orgRoleUsers := fun o r => if o = 10 ∧ r = "admins" then [100, 101] else [] }

/-- A remote on which instance group "east" exposes no "Use" object-role. -/
def stateNoUseRole : RemoteState :=
  { stateConverged with
    igObjectRoles := fun _ => []
    roleHolders := fun _ => []
    orgRoleUsers := fun _ _ => [] }

/-- The cleanup fixture: user 200 holds the Use role of "east" directly. -/
def stateDirectUse : RemoteState :=
  { stateConverged with
    roleHolders := fun r => if r = 40 then [200] else if r = 50 then [100] else [] }

/-- The converged fixture extended with a skip-listed instance group
"default" (id 2, Use role 41). -/
def stateWithSkipped : RemoteState :=
  { stateConverged with
    igs := [⟨2, "default"⟩, ⟨3, "east"⟩]
    igObjectRoles := fun i =>
      if i = 2 then [⟨41, "Use"⟩] else if i = 3 then [⟨40, "Use"⟩] else [] }

/-! ### C1 — counterexample part (the amended statement is proved below). -/

/-- C1 counterexample: on `stateConverged` a run succeeds and leaves the
remote unchanged, yet it issues one mutating call — the unconditional Use
grant POST of src/main.py line 332 — so the unchanged-remote re-run issues
that same call instead of zero mutating calls. -/
theorem run_on_converged_state_still_mutates :
    (sync {} stateConverged).2 = .ok stateConverged
    ∧ (sync {} stateConverged).1 = [Call.teamRoleAssoc 1 (some 40)] :=
  ⟨rfl, rfl⟩

/-! ### C2 — the removal path crashes instead of disassociating. -/

/-- C2: on the convergent-removal fixture (members {100,101,102}, desired
{100,101}) the reconciler does not issue the expected disassociate for user
102: the run's only mutating call is the phase-1 Use grant, and the run
aborts with the NameError caused by the unbound `user_id` of src/main.py
line 429. -/
theorem convergent_removal_crashes :
    (sync {} stateStaleMember).1 = [Call.teamRoleAssoc 1 (some 40)]
    ∧ (sync {} stateStaleMember).2 = .error .nameErrorUserId :=
  ⟨rfl, rfl⟩

/-! ### C3 — a missing expected role is not handled. -/

/-- C3: with cleanup disabled and instance group "east" exposing no "Use"
object-role, the run does not abort before granting: it proceeds with the
unresolved role id and issues the Team Use-grant POST carrying a null role
id (which the server then rejects). -/
theorem missing_use_role_grant_still_issued :
    (sync { cleanupUseRole := false } stateNoUseRole).1 = [Call.teamRoleAssoc 1 none]
    ∧ (sync { cleanupUseRole := false } stateNoUseRole).2 = .error .badRequest :=
  ⟨rfl, rfl⟩

/-! ### C4 — cleanup crashes before issuing any disassociation. -/

/-- C4: with cleanup enabled and user 200 holding a direct Use grant on
"east", no disassociate call is ever issued (and hence none precedes the
Team grant): the payload of src/main.py line 288 evaluates the undefined
name `disassociate` and the run dies with a NameError having issued zero
mutating calls. -/
theorem cleanup_crashes_before_any_call :
    (sync {} stateDirectUse).1 = ([] : Trace)
    ∧ (sync {} stateDirectUse).2 = .error .nameErrorDisassociate :=
  ⟨rfl, rfl⟩

/-! ### C9 — the findFirst contract. -/

/-- C9: `_controller_find_first_entity` returns absent exactly when the
response's reported count is zero, otherwise it returns the first element of
the results list, and the request URL carries `page_size=1`. -/
theorem controller_find_first_entity_contract {α : Type} (page : ApiPage α)
    (base entity query : String) :
    (controller_find_first_entity page = .ok none ↔ page.count = 0)
    ∧ (∀ e rest, page.results = e :: rest → page.count ≠ 0 →
        controller_find_first_entity page = .ok (some e))
    ∧ controller_find_first_entity_url base entity query =
        base ++ "/api/v2/" ++ entity ++ "/?page_size=1&page=1&" ++ query := by
  refine ⟨?_, ?_, rfl⟩
  · unfold controller_find_first_entity
    split
    · simp [*]
    · cases hr : page.results <;> simp_all
  · intro e rest hres hcount
    unfold controller_find_first_entity
    rw [if_neg hcount, hres]

/-- C9 witness: the contract evaluated on a concrete one-element page. -/
theorem controller_find_first_entity_contract_witness :
    controller_find_first_entity (⟨1, [5]⟩ : ApiPage Nat) = .ok (some 5) :=
  (controller_find_first_entity_contract (⟨1, [5]⟩ : ApiPage Nat) "b" "e" "q").2.1
    5 [] rfl (by decide)

/-! ### C7 — find-before-create. -/

/-- C7: the backing-team logic looks up by exact name and parent organization
first and returns the found team with no create call; when the lookup is
absent it issues exactly one create and re-fetches, and a second invocation
against the resulting state finds the created team and issues no further
create. -/
theorem team_find_before_create (s0 : RemoteState) (pid : Nat) (tn parentName : String) :
    (∀ T0, findTeam s0.teams s0.orgs tn parentName = some T0 →
        ensureTeam s0 parentName pid tn = ([], .ok (s0, T0)))
    ∧ (orgNameOf s0.orgs pid = some parentName →
        findTeam s0.teams s0.orgs tn parentName = none →
        ∃ T, ensureTeam s0 parentName pid tn =
            ([.createTeam tn pid], .ok (addTeam s0 tn pid, T))
          ∧ ensureTeam (addTeam s0 tn pid) parentName pid tn =
            ([], .ok (addTeam s0 tn pid, T))) := by
  constructor
  · intro T0 h
    unfold ensureTeam
    rw [h]
  · intro horg habs
    have hfind : findTeam (addTeam s0 tn pid).teams (addTeam s0 tn pid).orgs tn parentName =
        some ⟨s0.nextTeamId, tn, pid⟩ := by
      show findTeam (s0.teams ++ [⟨s0.nextTeamId, tn, pid⟩]) s0.orgs tn parentName = _
      unfold findTeam at habs ⊢
      rw [List.find?_append, habs]
      simp [horg]
    exact ⟨⟨s0.nextTeamId, tn, pid⟩, by unfold ensureTeam; simp only [habs, hfind],
      by unfold ensureTeam; simp only [hfind]⟩

/-- C7 witness: creating the team on a one-org remote with no teams. -/
theorem team_find_before_create_witness :
    ∃ T, ensureTeam
          { igs := [], igObjectRoles := fun _ => [], teams := [],
            teamObjectRoles := fun _ => [], roleHolders := fun _ => [],
            orgs := [⟨7, "ADMIN-AREA"⟩], orgRoleUsers := fun _ _ => [], nextTeamId := 0 }
          "ADMIN-AREA" 7 "t-IG-USE-east" =
        ([.createTeam "t-IG-USE-east" 7],
          .ok (addTeam
            { igs := [], igObjectRoles := fun _ => [], teams := [],
              teamObjectRoles := fun _ => [], roleHolders := fun _ => [],
              orgs := [⟨7, "ADMIN-AREA"⟩], orgRoleUsers := fun _ _ => [], nextTeamId := 0 }
            "t-IG-USE-east" 7, T))
      ∧ ensureTeam (addTeam
            { igs := [], igObjectRoles := fun _ => [], teams := [],
              teamObjectRoles := fun _ => [], roleHolders := fun _ => [],
              orgs := [⟨7, "ADMIN-AREA"⟩], orgRoleUsers := fun _ _ => [], nextTeamId := 0 }
            "t-IG-USE-east" 7) "ADMIN-AREA" 7 "t-IG-USE-east" =
        ([], .ok (addTeam
            { igs := [], igObjectRoles := fun _ => [], teams := [],
              teamObjectRoles := fun _ => [], roleHolders := fun _ => [],
              orgs := [⟨7, "ADMIN-AREA"⟩], orgRoleUsers := fun _ _ => [], nextTeamId := 0 }
            "t-IG-USE-east" 7, T)) :=
  (team_find_before_create _ 7 "t-IG-USE-east" "ADMIN-AREA").2 (by rfl) (by rfl)

/-! ### C10 — the post-create re-fetch is unguarded. -/

/-- C10: when the lookup that follows a team create still returns absent, the
registry builder subscripts the absent result (`team['id']`, src/main.py
line 333) with no error branch — modelled as the `noneSubscript` failure —
so totality of the builder needs every created team to be found by the
immediately following lookup. -/
theorem post_create_refetch_unguarded (s0 : RemoteState) (pid : Nat) (tn parentName : String)
    (habs : findTeam s0.teams s0.orgs tn parentName = none)
    (habs2 : findTeam (addTeam s0 tn pid).teams (addTeam s0 tn pid).orgs tn parentName = none) :
    ensureTeam s0 parentName pid tn = ([.createTeam tn pid], .error .noneSubscript) := by
  unfold ensureTeam
  simp only [habs, habs2]

/-! ### Structure of the desired-membership accumulation (phase 2). -/

theorem alLookup_cons (e : String × Nat × List Nat) (al : AllowedMap) (tn : String) :
    alLookup (e :: al) tn = if e.1 = tn then some e.2 else alLookup al tn := by
  unfold alLookup
  by_cases h : e.1 = tn
  · rw [List.find?_cons_of_pos _ (by simpa using h), if_pos h]
    rfl
  · rw [List.find?_cons_of_neg _ (by simpa using h), if_neg h]

theorem alExtend_lookup_ne (al : AllowedMap) (k : String) (tid : Nat) (us : List Nat)
    (tn : String) (h : tn ≠ k) : alLookup (alExtend al k tid us) tn = alLookup al tn := by
  induction al with
  | nil => simp [alExtend, alLookup_cons, Ne.symm h, alLookup]
  | cons e al ih =>
    unfold alExtend
    by_cases he : e.1 = k
    · rw [if_pos he, alLookup_cons, alLookup_cons]
      have : ¬ (e.1 = tn) := by rw [he]; exact Ne.symm h
      rw [if_neg this, if_neg this]
    · rw [if_neg he, alLookup_cons, alLookup_cons, ih]

theorem alExtend_lookup_none (al : AllowedMap) (k : String) (tid : Nat) (us : List Nat)
    (h : alLookup al k = none) : alLookup (alExtend al k tid us) k = some (tid, us) := by
  induction al with
  | nil => simp [alExtend, alLookup_cons]
  | cons e al ih =>
    rw [alLookup_cons] at h
    by_cases he : e.1 = k
    · rw [if_pos he] at h
      cases h
    · rw [if_neg he] at h
      unfold alExtend
      rw [if_neg he, alLookup_cons, if_neg he]
      exact ih h

theorem alExtend_lookup_some (al : AllowedMap) (k : String) (tid : Nat) (us : List Nat)
    (i : Nat) (l : List Nat) (h : alLookup al k = some (i, l)) :
    alLookup (alExtend al k tid us) k = some (i, l ++ us) := by
  induction al with
  | nil => cases h
  | cons e al ih =>
    rw [alLookup_cons] at h
    by_cases he : e.1 = k
    · rw [if_pos he] at h
      injection h with h2
      unfold alExtend
      rw [if_pos he, alLookup_cons, if_pos he, h2]
    · rw [if_neg he] at h
      unfold alExtend
      rw [if_neg he, alLookup_cons, if_neg he]
      exact ih h

theorem phase2Team_fold_ne (tm : TeamMap) (al : AllowedMap) (us : List Nat) (tn : String)
    (h : tn ∉ tm.map Prod.fst) :
    alLookup (tm.foldl (phase2Team us) al) tn = alLookup al tn := by
  induction tm generalizing al with
  | nil => rfl
  | cons e tm ih =>
    rw [List.map_cons, List.mem_cons, not_or] at h
    rw [List.foldl_cons, ih _ h.2]
    exact alExtend_lookup_ne al e.1 e.2.id us tn h.1

theorem phase2Team_fold_mem (tm : TeamMap) (al : AllowedMap) (us : List Nat)
    (tn : String) (T : TeamObj) (hnd : (tm.map Prod.fst).Nodup) (hmem : (tn, T) ∈ tm) :
    alLookup (tm.foldl (phase2Team us) al) tn =
      match alLookup al tn with
      | none => some (T.id, us)
      | some (i, l) => some (i, l ++ us) := by
  induction tm generalizing al with
  | nil => cases hmem
  | cons e tm ih =>
    rw [List.map_cons, List.nodup_cons] at hnd
    rw [List.foldl_cons]
    rcases List.mem_cons.mp hmem with heq | hmem2
    · subst heq
      rw [phase2Team_fold_ne tm _ us tn hnd.1]
      show alLookup (alExtend al tn T.id us) tn = _
      cases hal : alLookup al tn with
      | none => rw [alExtend_lookup_none al tn T.id us hal]
      | some p =>
        rcases p with ⟨i, l⟩
        rw [alExtend_lookup_some al tn T.id us i l hal]
    · have htn : tn ∈ tm.map Prod.fst := List.mem_map.mpr ⟨(tn, T), hmem2, rfl⟩
      have hne : tn ≠ e.1 := fun hEq => hnd.1 (hEq ▸ htn)
      rw [ih _ hnd.2 hmem2]
      show (match alLookup (alExtend al e.1 e.2.id us) tn with
        | none => some (T.id, us) | some (i, l) => some (i, l ++ us)) = _
      rw [alExtend_lookup_ne al e.1 e.2.id us tn hne]

theorem roles_fold_some (f : Nat → String → List Nat) (tm : TeamMap) (oid : Nat)
    (roles : List String) (al : AllowedMap) (tn : String) (T : TeamObj) (i : Nat)
    (l : List Nat) (hnd : (tm.map Prod.fst).Nodup) (hmem : (tn, T) ∈ tm)
    (h : alLookup al tn = some (i, l)) :
    alLookup (roles.foldl (phase2Role f tm oid) al) tn =
      some (i, l ++ roles.flatMap fun r => f oid r) := by
  induction roles generalizing al l with
  | nil => simpa using h
  | cons r rs ih =>
    rw [List.foldl_cons]
    have h2 : alLookup (phase2Role f tm oid al r) tn = some (i, l ++ f oid r) := by
      unfold phase2Role
      rw [phase2Team_fold_mem tm al (f oid r) tn T hnd hmem, h]
    rw [ih _ _ h2, List.flatMap_cons, List.append_assoc]

theorem roles_fold_none (f : Nat → String → List Nat) (tm : TeamMap) (oid : Nat)
    (roles : List String) (al : AllowedMap) (tn : String) (T : TeamObj)
    (hnd : (tm.map Prod.fst).Nodup) (hmem : (tn, T) ∈ tm)
    (h : alLookup al tn = none) (hne : roles ≠ []) :
    alLookup (roles.foldl (phase2Role f tm oid) al) tn =
      some (T.id, roles.flatMap fun r => f oid r) := by
  cases roles with
  | nil => exact absurd rfl hne
  | cons r rs =>
    rw [List.foldl_cons]
    have h2 : alLookup (phase2Role f tm oid al r) tn = some (T.id, f oid r) := by
      unfold phase2Role
      rw [phase2Team_fold_mem tm al (f oid r) tn T hnd hmem, h]
    rw [roles_fold_some f tm oid rs _ tn T _ _ hnd hmem h2, List.flatMap_cons]

theorem orgs_fold_some (f : Nat → String → List Nat) (roles : List String) (tm : TeamMap)
    (orgs : List OrgObj) (al : AllowedMap) (tn : String) (T : TeamObj) (i : Nat)
    (l : List Nat) (hnd : (tm.map Prod.fst).Nodup) (hmem : (tn, T) ∈ tm)
    (h : alLookup al tn = some (i, l)) :
    alLookup (orgs.foldl (phase2Org f roles tm) al) tn =
      some (i, l ++ orgs.flatMap fun o => roles.flatMap fun r => f o.id r) := by
  induction orgs generalizing al l with
  | nil => simpa using h
  | cons o os ih =>
    rw [List.foldl_cons]
    have h2 : alLookup (phase2Org f roles tm al o) tn = some (i, l ++ roles.flatMap fun r => f o.id r) :=
      roles_fold_some f tm o.id roles al tn T i l hnd hmem h
    rw [ih _ _ h2, List.flatMap_cons, List.append_assoc]

/-- The central phase-2 fact: when there is at least one organization and at
least one allowed role, every registry entry's accumulated user list is the
same full concatenation of role-holder ids over all organizations and all
allowed roles — not filtered by the organization's referenced groups. -/
theorem phase2_alLookup (f : Nat → String → List Nat) (roles : List String) (tm : TeamMap)
    (orgs : List OrgObj) (tn : String) (T : TeamObj)
    (hnd : (tm.map Prod.fst).Nodup) (hmem : (tn, T) ∈ tm)
    (horgs : orgs ≠ []) (hroles : roles ≠ []) :
    alLookup (phase2 f roles tm orgs) tn =
      some (T.id, orgs.flatMap fun o => roles.flatMap fun r => f o.id r) := by
  cases orgs with
  | nil => exact absurd rfl horgs
  | cons o os =>
    unfold phase2
    rw [List.foldl_cons]
    have h1 : alLookup (phase2Org f roles tm [] o) tn =
        some (T.id, roles.flatMap fun r => f o.id r) :=
      roles_fold_none f tm o.id roles [] tn T hnd hmem rfl hroles
    rw [orgs_fold_some f roles tm os _ tn T _ _ hnd hmem h1, List.flatMap_cons]

/-! ### C5 — desired-membership breadth. -/

/-- C5: for every organization and allowed role, the role-holder ids are
pushed into the desired list of every team in the registry, so every team's
desired user list is the same concatenation over all organizations and all
allowed roles (and a fortiori the same set). -/
theorem desired_membership_breadth (f : Nat → String → List Nat) (roles : List String)
    (tm : TeamMap) (orgs : List OrgObj) (tn : String) (T : TeamObj)
    (hnd : (tm.map Prod.fst).Nodup) (hmem : (tn, T) ∈ tm)
    (horgs : orgs ≠ []) (hroles : roles ≠ []) :
    alLookup (phase2 f roles tm orgs) tn =
      some (T.id, orgs.flatMap fun o => roles.flatMap fun r => f o.id r) :=
  phase2_alLookup f roles tm orgs tn T hnd hmem horgs hroles

/-- C5 witness: a two-organization remote where only org 10 has an admin;
the single registry team's desired list is the union over both
organizations. -/
theorem desired_membership_breadth_witness :
    alLookup (phase2 (fun o r => if o = 10 ∧ r = "admins" then [100] else [])
        ["admins"] [("t-IG-USE-east", ⟨1, "t-IG-USE-east", 7⟩)]
        [⟨7, "ADMIN-AREA"⟩, ⟨10, "org-a"⟩]) "t-IG-USE-east" = some (1, [100]) :=
  (desired_membership_breadth (fun o r => if o = 10 ∧ r = "admins" then [100] else [])
      ["admins"] [("t-IG-USE-east", ⟨1, "t-IG-USE-east", 7⟩)]
      [⟨7, "ADMIN-AREA"⟩, ⟨10, "org-a"⟩] "t-IG-USE-east" ⟨1, "t-IG-USE-east", 7⟩
      (by decide) (by decide) (by decide) (by decide)).trans (by decide)

/-! ### C8 — order independence of desired membership. -/

/-- C8: permuting the organization listing (role-holder data unchanged per
organization) leaves every team's desired-membership set unchanged: both
runs of the accumulator give the team the same id and user lists with equal
underlying sets. -/
theorem desired_membership_order_independent (f : Nat → String → List Nat)
    (roles : List String) (tm : TeamMap) (orgs1 orgs2 : List OrgObj) (tn : String)
    (T : TeamObj) (hperm : orgs1.Perm orgs2) (hnd : (tm.map Prod.fst).Nodup)
    (hmem : (tn, T) ∈ tm) (h1 : orgs1 ≠ []) (hroles : roles ≠ []) :
    ∃ us1 us2,
      alLookup (phase2 f roles tm orgs1) tn = some (T.id, us1)
      ∧ alLookup (phase2 f roles tm orgs2) tn = some (T.id, us2)
      ∧ us1.toFinset = us2.toFinset := by
  have h2 : orgs2 ≠ [] := by
    intro h
    subst h
    exact h1 hperm.eq_nil
  refine ⟨_, _, phase2_alLookup f roles tm orgs1 tn T hnd hmem h1 hroles,
    phase2_alLookup f roles tm orgs2 tn T hnd hmem h2 hroles, ?_⟩
  ext x
  simp only [List.mem_toFinset, List.mem_flatMap]
  constructor
  · rintro ⟨o, ho, hx⟩
    exact ⟨o, hperm.mem_iff.mp ho, hx⟩
  · rintro ⟨o, ho, hx⟩
    exact ⟨o, hperm.mem_iff.mpr ho, hx⟩

/-- C8 witness: swapping the two organizations of the C5 fixture. -/
theorem desired_membership_order_independent_witness :
    ∃ us1 us2,
      alLookup (phase2 (fun o r => if o = 10 ∧ r = "admins" then [100] else [])
          ["admins"] [("t-IG-USE-east", ⟨1, "t-IG-USE-east", 7⟩)]
          [⟨7, "ADMIN-AREA"⟩, ⟨10, "org-a"⟩]) "t-IG-USE-east" = some (1, us1)
      ∧ alLookup (phase2 (fun o r => if o = 10 ∧ r = "admins" then [100] else [])
          ["admins"] [("t-IG-USE-east", ⟨1, "t-IG-USE-east", 7⟩)]
          [⟨10, "org-a"⟩, ⟨7, "ADMIN-AREA"⟩]) "t-IG-USE-east" = some (1, us2)
      ∧ us1.toFinset = us2.toFinset :=
  desired_membership_order_independent (fun o r => if o = 10 ∧ r = "admins" then [100] else [])
    ["admins"] [("t-IG-USE-east", ⟨1, "t-IG-USE-east", 7⟩)]
    [⟨7, "ADMIN-AREA"⟩, ⟨10, "org-a"⟩] [⟨10, "org-a"⟩, ⟨7, "ADMIN-AREA"⟩]
    "t-IG-USE-east" ⟨1, "t-IG-USE-east", 7⟩
    (List.Perm.swap (⟨10, "org-a"⟩ : OrgObj) (⟨7, "ADMIN-AREA"⟩ : OrgObj) [])
    (by decide) (by decide) (by decide) (by decide)

/-! ### Congruence and frame helpers. -/

theorem useRidOf_congr (s s2 : RemoteState) (h : s2.igObjectRoles = s.igObjectRoles)
    (i : Nat) : useRidOf s2 i = useRidOf s i := by
  unfold useRidOf
  rw [h]

theorem memberRidOf_congr (s s2 : RemoteState) (h : s2.teamObjectRoles = s.teamObjectRoles)
    (t : Nat) : memberRidOf s2 t = memberRidOf s t := by
  unfold memberRidOf
  rw [h]

theorem sameSkeleton_refl (s : RemoteState) : SameSkeleton s s :=
  ⟨rfl, rfl, rfl, rfl, rfl, rfl, rfl⟩

theorem sameSkeleton_trans (s s2 s3 : RemoteState) (h1 : SameSkeleton s s2)
    (h2 : SameSkeleton s2 s3) : SameSkeleton s s3 := by
  obtain ⟨a1, a2, a3, a4, a5, a6, a7⟩ := h1
  obtain ⟨b1, b2, b3, b4, b5, b6, b7⟩ := h2
  exact ⟨b1.trans a1, b2.trans a2, b3.trans a3, b4.trans a4, b5.trans a5,
    b6.trans a6, b7.trans a7⟩

theorem assocHolders_skeleton (s : RemoteState) (uid r : Nat) :
    SameSkeleton s (assocHolders s uid r) :=
  ⟨rfl, rfl, rfl, rfl, rfl, rfl, rfl⟩

theorem disassocHolders_skeleton (s : RemoteState) (uid r : Nat) :
    SameSkeleton s (disassocHolders s uid r) :=
  ⟨rfl, rfl, rfl, rfl, rfl, rfl, rfl⟩

theorem assocHolders_ne (s : RemoteState) (uid r x : Nat) (h : x ≠ r) :
    (assocHolders s uid r).roleHolders x = s.roleHolders x := by
  unfold assocHolders
  simp [h]

theorem disassocHolders_ne (s : RemoteState) (uid r x : Nat) (h : x ≠ r) :
    (disassocHolders s uid r).roleHolders x = s.roleHolders x := by
  unfold disassocHolders
  simp [h]

theorem assocHolders_self_mem (s : RemoteState) (uid r x : Nat) :
    x ∈ (assocHolders s uid r).roleHolders r ↔ (x ∈ s.roleHolders r ∨ x = uid) := by
  unfold assocHolders
  simp only [if_pos rfl]
  by_cases hu : uid ∈ s.roleHolders r
  · rw [if_pos hu]
    constructor
    · exact fun hx => Or.inl hx
    · rintro (hx | rfl)
      · exact hx
      · exact hu
  · rw [if_neg hu]
    simp [List.mem_append]

theorem phase1Frame_refl (s : RemoteState) : Phase1Frame s s :=
  ⟨rfl, rfl, rfl, rfl, rfl, rfl, Nat.le_refl _, [], by simp, by simp⟩

theorem phase1Frame_addTeam (s : RemoteState) (tn : String) (oid : Nat) :
    Phase1Frame s (addTeam s tn oid) :=
  ⟨rfl, rfl, rfl, rfl, rfl, rfl, Nat.le_succ _, [⟨s.nextTeamId, tn, oid⟩], rfl, by
    intro t ht
    rw [List.mem_singleton] at ht
    subst ht
    exact Nat.le_refl _⟩

theorem phase1Frame_trans (s s2 s3 : RemoteState) (h1 : Phase1Frame s s2)
    (h2 : Phase1Frame s2 s3) : Phase1Frame s s3 := by
  obtain ⟨a1, a2, a3, a4, a5, a6, a7, ext1, he1, hb1⟩ := h1
  obtain ⟨b1, b2, b3, b4, b5, b6, b7, ext2, he2, hb2⟩ := h2
  refine ⟨b1.trans a1, b2.trans a2, b3.trans a3, b4.trans a4, b5.trans a5, b6.trans a6,
    Nat.le_trans a7 b7, ext1 ++ ext2, by rw [he2, he1, List.append_assoc], ?_⟩
  intro t ht
  rcases List.mem_append.mp ht with h | h
  · exact hb1 t h
  · exact Nat.le_trans a7 (hb2 t h)

/-! ### Inversion of the phase-1 building blocks. -/

theorem cleanupStep_ok (s : RemoteState) (u : Option Nat) (h : cleanupStep s u = .ok ()) :
    ∃ rid, u = some rid ∧ s.roleHolders rid = [] := by
  cases u with
  | none => simp [cleanupStep] at h
  | some rid =>
    refine ⟨rid, rfl, ?_⟩
    cases hr : s.roleHolders rid with
    | nil => rfl
    | cons a l => simp [cleanupStep, hr] at h

theorem ensureTeam_ok (s : RemoteState) (parentName : String) (pid : Nat) (tn : String)
    (tr : Trace) (sA : RemoteState) (team : TeamObj)
    (h : ensureTeam s parentName pid tn = (tr, .ok (sA, team))) :
    findTeam sA.teams sA.orgs tn parentName = some team
    ∧ Phase1Frame s sA
    ∧ ((sA = s ∧ tr = []) ∨ (sA = addTeam s tn pid ∧ tr = [.createTeam tn pid])) := by
  unfold ensureTeam at h
  cases hf : findTeam s.teams s.orgs tn parentName with
  | some t =>
    rw [hf] at h
    rw [Prod.mk.injEq] at h
    obtain ⟨h1, h2⟩ := h
    injection h2 with h3
    rw [Prod.mk.injEq] at h3
    obtain ⟨h4, h5⟩ := h3
    subst h4; subst h5; subst h1
    exact ⟨hf, phase1Frame_refl s, Or.inl ⟨rfl, rfl⟩⟩
  | none =>
    rw [hf] at h
    simp only [] at h
    cases hf2 : findTeam (addTeam s tn pid).teams (addTeam s tn pid).orgs tn parentName with
    | some t =>
      rw [hf2] at h
      rw [Prod.mk.injEq] at h
      obtain ⟨h1, h2⟩ := h
      injection h2 with h3
      rw [Prod.mk.injEq] at h3
      obtain ⟨h4, h5⟩ := h3
      subst h4; subst h5; subst h1
      exact ⟨hf2, phase1Frame_addTeam s tn pid, Or.inr ⟨rfl, rfl⟩⟩
    | none =>
      rw [hf2] at h
      rw [Prod.mk.injEq] at h
      exact absurd h.2 (by simp)

theorem processIG_ok (cl : Bool) (pfx parentName : String) (pid : Nat) (s : RemoteState)
    (tm : TeamMap) (ig : IGroup) (tr : Trace) (sA : RemoteState) (tmA : TeamMap)
    (h : processIG cl pfx parentName pid s tm ig = (tr, .ok (sA, tmA))) :
    ∃ rid team,
      useRidOf s ig.id = some rid
      ∧ (cl = true → s.roleHolders rid = [])
      ∧ tmA = tmInsert tm (pfx ++ ig.name) team
      ∧ findTeam sA.teams sA.orgs (pfx ++ ig.name) parentName = some team
      ∧ Phase1Frame s sA
      ∧ ((sA = s ∧ tr = [Call.teamRoleAssoc team.id (some rid)])
         ∨ (sA = addTeam s (pfx ++ ig.name) pid
            ∧ tr = [Call.createTeam (pfx ++ ig.name) pid,
                Call.teamRoleAssoc team.id (some rid)])) := by
  unfold processIG at h
  cases hcl : (if cl then cleanupStep s (useRidOf s ig.id) else .ok ()) with
  | error e => rw [hcl] at h; cases h
  | ok u =>
    rw [hcl] at h
    cases he : ensureTeam s parentName pid (pfx ++ ig.name) with
    | mk trE resE =>
      rw [he] at h
      cases resE with
      | error e => simp only [] at h; cases h
      | ok p =>
        rcases p with ⟨sA2, team⟩
        simp only [] at h
        cases hu : useRidOf s ig.id with
        | none => rw [hu] at h; simp only [] at h; cases h
        | some rid =>
          rw [hu] at h
          simp only [] at h
          rw [Prod.mk.injEq] at h
          obtain ⟨h1, h2⟩ := h
          injection h2 with h3
          rw [Prod.mk.injEq] at h3
          obtain ⟨h4, h5⟩ := h3
          obtain ⟨hfind, hframe, hbranch⟩ := ensureTeam_ok s parentName pid _ _ _ _ he
          refine ⟨rid, team, rfl, ?_, h5.symm, h4 ▸ hfind, h4 ▸ hframe, ?_⟩
          · intro hc
            subst hc
            simp only [if_pos rfl] at hcl
            obtain ⟨rid2, hrid2, hemp⟩ := cleanupStep_ok s _ hcl
            rw [hu] at hrid2
            injection hrid2 with hh
            rwa [hh]
          · subst h4
            rcases hbranch with ⟨hs, htr⟩ | ⟨hs, htr⟩
            · exact Or.inl ⟨hs, by rw [← h1, htr]; rfl⟩
            · exact Or.inr ⟨hs, by rw [← h1, htr]; rfl⟩

theorem processIG_build (cl : Bool) (pfx parentName : String) (pid : Nat) (s : RemoteState)
    (tm : TeamMap) (ig : IGroup) (rid : Nat) (team : TeamObj)
    (h1 : useRidOf s ig.id = some rid)
    (h2 : cl = true → s.roleHolders rid = [])
    (h3 : findTeam s.teams s.orgs (pfx ++ ig.name) parentName = some team) :
    processIG cl pfx parentName pid s tm ig =
      ([Call.teamRoleAssoc team.id (some rid)],
        .ok (s, tmInsert tm (pfx ++ ig.name) team)) := by
  have hcl : (if cl then cleanupStep s (useRidOf s ig.id) else .ok ()) = Except.ok () := by
    cases cl with
    | false => rfl
    | true =>
      rw [if_pos rfl, h1]
      simp [cleanupStep, h2 rfl]
  have he : ensureTeam s parentName pid (pfx ++ ig.name) = ([], .ok (s, team)) := by
    unfold ensureTeam
    rw [h3]
  unfold processIG
  rw [hcl, he, h1]
  rfl

/-! ### Phase-1 invariants. -/

theorem findTeam_append (l ext : List TeamObj) (orgs : List OrgObj) (tn parentName : String)
    (T : TeamObj) (h : findTeam l orgs tn parentName = some T) :
    findTeam (l ++ ext) orgs tn parentName = some T := by
  unfold findTeam at h ⊢
  rw [List.find?_append, h]
  rfl

theorem findTeam_some_facts (l : List TeamObj) (orgs : List OrgObj) (tn parentName : String)
    (T : TeamObj) (h : findTeam l orgs tn parentName = some T) : T ∈ l ∧ T.name = tn := by
  unfold findTeam at h
  refine ⟨List.mem_of_find?_eq_some h, ?_⟩
  have h2 := List.find?_some h
  rw [decide_eq_true_eq] at h2
  exact h2.1

theorem tmInsert_mem (tm : TeamMap) (tn : String) (t : TeamObj) (e : String × TeamObj)
    (h : e ∈ tmInsert tm tn t) : e = (tn, t) ∨ e ∈ tm := by
  induction tm with
  | nil =>
    rw [tmInsert, List.mem_singleton] at h
    exact Or.inl h
  | cons e2 tm ih =>
    rw [tmInsert] at h
    by_cases he : e2.1 = tn
    · rw [if_pos he, List.mem_cons] at h
      rcases h with h | h
      · exact Or.inl h
      · exact Or.inr (List.mem_cons_of_mem e2 h)
    · rw [if_neg he, List.mem_cons] at h
      rcases h with h | h
      · exact Or.inr (h ▸ List.mem_cons_self e2 tm)
      · rcases ih h with h2 | h2
        · exact Or.inl h2
        · exact Or.inr (List.mem_cons_of_mem e2 h2)

theorem tmInsert_keys (tm : TeamMap) (tn : String) (t : TeamObj) :
    (tmInsert tm tn t).map Prod.fst =
      if tn ∈ tm.map Prod.fst then tm.map Prod.fst else tm.map Prod.fst ++ [tn] := by
  induction tm with
  | nil => simp [tmInsert]
  | cons e tm ih =>
    rw [tmInsert]
    by_cases he : e.1 = tn
    · rw [if_pos he, List.map_cons, List.map_cons]
      have : tn ∈ e.1 :: tm.map Prod.fst := by rw [he]; exact List.mem_cons_self _ _
      rw [if_pos this, he]
    · rw [if_neg he, List.map_cons, List.map_cons, ih]
      by_cases hm : tn ∈ tm.map Prod.fst
      · rw [if_pos hm, if_pos (List.mem_cons_of_mem e.1 hm)]
      · rw [if_neg hm, if_neg ?_]
        · rw [List.cons_append]
        · rw [List.mem_cons, not_or]
          exact ⟨fun hEq => he hEq.symm, hm⟩

theorem tmInsert_keys_nodup (tm : TeamMap) (tn : String) (t : TeamObj)
    (h : (tm.map Prod.fst).Nodup) : ((tmInsert tm tn t).map Prod.fst).Nodup := by
  rw [tmInsert_keys]
  by_cases hm : tn ∈ tm.map Prod.fst
  · rwa [if_pos hm]
  · rw [if_neg hm, List.nodup_append]
    refine ⟨h, List.nodup_singleton tn, ?_⟩
    intro a ha hb
    rw [List.mem_singleton] at hb
    exact hm (hb ▸ ha)

theorem addTeam_ids (s : RemoteState) (tn : String) (oid : Nat)
    (h1 : (s.teams.map TeamObj.id).Nodup) (h2 : ∀ t ∈ s.teams, t.id < s.nextTeamId) :
    ((addTeam s tn oid).teams.map TeamObj.id).Nodup
    ∧ ∀ t ∈ (addTeam s tn oid).teams, t.id < (addTeam s tn oid).nextTeamId := by
  constructor
  · show ((s.teams ++ [(⟨s.nextTeamId, tn, oid⟩ : TeamObj)]).map TeamObj.id).Nodup
    rw [List.map_append, List.nodup_append]
    refine ⟨h1, by simp, ?_⟩
    intro a ha hb
    simp only [List.map_cons, List.map_nil, List.mem_singleton] at hb
    rw [List.mem_map] at ha
    obtain ⟨t, ht, rfl⟩ := ha
    exact absurd hb (Nat.ne_of_lt (h2 t ht))
  · intro t ht
    rcases List.mem_append.mp ht with h | h
    · exact Nat.lt_succ_of_lt (h2 t h)
    · rw [List.mem_singleton] at h
      subst h
      exact Nat.lt_succ_self _

theorem phase1_frame (cl : Bool) (pfx parentName : String) (pid : Nat) (skip : List String) :
    ∀ (igs : List IGroup) (s : RemoteState) (tm : TeamMap) (TR : Trace)
      (sMid : RemoteState) (tmOut : TeamMap),
    phase1 cl pfx parentName pid skip s tm igs = (TR, .ok (sMid, tmOut)) →
    Phase1Frame s sMid := by
  intro igs
  induction igs with
  | nil =>
    intro s tm TR sMid tmOut h
    simp only [phase1, Prod.mk.injEq, Except.ok.injEq] at h
    rw [← h.2.1]
    exact phase1Frame_refl s
  | cons ig rest ih =>
    intro s tm TR sMid tmOut h
    rw [phase1] at h
    by_cases hskip : ig.name ∈ skip
    · rw [if_pos hskip] at h
      exact ih s tm TR sMid tmOut h
    · rw [if_neg hskip] at h
      cases hp : processIG cl pfx parentName pid s tm ig with
      | mk trP resP =>
        rw [hp] at h
        cases resP with
        | error e => simp at h
        | ok q =>
          rcases q with ⟨sA, tmA⟩
          simp only [] at h
          cases hrec : phase1 cl pfx parentName pid skip sA tmA rest with
          | mk trR resR =>
            rw [hrec] at h
            simp only [Prod.mk.injEq] at h
            obtain ⟨rid, team, _, _, _, _, hframe, _⟩ :=
              processIG_ok cl pfx parentName pid s tm ig trP sA tmA hp
            rw [h.2] at hrec
            exact phase1Frame_trans s sA sMid hframe
              (ih sA tmA trR sMid tmOut hrec)

theorem phase1_useRid (cl : Bool) (pfx parentName : String) (pid : Nat) (skip : List String) :
    ∀ (igs : List IGroup) (s : RemoteState) (tm : TeamMap) (TR : Trace)
      (sMid : RemoteState) (tmOut : TeamMap),
    phase1 cl pfx parentName pid skip s tm igs = (TR, .ok (sMid, tmOut)) →
    ∀ ig2 ∈ igs, ig2.name ∉ skip →
      ∃ rid, useRidOf s ig2.id = some rid ∧ (cl = true → s.roleHolders rid = []) := by
  intro igs
  induction igs with
  | nil =>
    intro s tm TR sMid tmOut h ig2 hmem
    cases hmem
  | cons ig rest ih =>
    intro s tm TR sMid tmOut h ig2 hmem hns
    rw [phase1] at h
    by_cases hskip : ig.name ∈ skip
    · rw [if_pos hskip] at h
      rcases List.mem_cons.mp hmem with rfl | hmem2
      · exact absurd hskip hns
      · exact ih s tm TR sMid tmOut h ig2 hmem2 hns
    · rw [if_neg hskip] at h
      cases hp : processIG cl pfx parentName pid s tm ig with
      | mk trP resP =>
        rw [hp] at h
        cases resP with
        | error e => simp at h
        | ok q =>
          rcases q with ⟨sA, tmA⟩
          simp only [] at h
          cases hrec : phase1 cl pfx parentName pid skip sA tmA rest with
          | mk trR resR =>
            rw [hrec] at h
            simp only [Prod.mk.injEq] at h
            obtain ⟨rid, team, hu, hclean, _, _, hframe, _⟩ :=
              processIG_ok cl pfx parentName pid s tm ig trP sA tmA hp
            rcases List.mem_cons.mp hmem with rfl | hmem2
            · exact ⟨rid, hu, hclean⟩
            · rw [h.2] at hrec
              obtain ⟨rid2, hu2, hclean2⟩ := ih sA tmA trR sMid tmOut hrec ig2 hmem2 hns
              obtain ⟨_, hIGR, _, _, _, hRH, _⟩ := hframe
              rw [useRidOf_congr s sA hIGR] at hu2
              rw [hRH] at hclean2
              exact ⟨rid2, hu2, hclean2⟩

theorem phase1_find (cl : Bool) (pfx parentName : String) (pid : Nat) (skip : List String) :
    ∀ (igs : List IGroup) (s : RemoteState) (tm : TeamMap) (TR : Trace)
      (sMid : RemoteState) (tmOut : TeamMap),
    phase1 cl pfx parentName pid skip s tm igs = (TR, .ok (sMid, tmOut)) →
    ∀ e ∈ tmOut, e ∈ tm ∨ findTeam sMid.teams sMid.orgs e.1 parentName = some e.2 := by
  intro igs
  induction igs with
  | nil =>
    intro s tm TR sMid tmOut h e he
    simp only [phase1, Prod.mk.injEq, Except.ok.injEq] at h
    rw [← h.2.2] at he
    exact Or.inl he
  | cons ig rest ih =>
    intro s tm TR sMid tmOut h e he
    rw [phase1] at h
    by_cases hskip : ig.name ∈ skip
    · rw [if_pos hskip] at h
      exact ih s tm TR sMid tmOut h e he
    · rw [if_neg hskip] at h
      cases hp : processIG cl pfx parentName pid s tm ig with
      | mk trP resP =>
        rw [hp] at h
        cases resP with
        | error e2 => simp at h
        | ok q =>
          rcases q with ⟨sA, tmA⟩
          simp only [] at h
          cases hrec : phase1 cl pfx parentName pid skip sA tmA rest with
          | mk trR resR =>
            rw [hrec] at h
            simp only [Prod.mk.injEq] at h
            obtain ⟨rid, team, _, _, htmA, hfind, _, _⟩ :=
              processIG_ok cl pfx parentName pid s tm ig trP sA tmA hp
            rw [h.2] at hrec
            rcases ih sA tmA trR sMid tmOut hrec e he with hin | hfound
            · rw [htmA] at hin
              rcases tmInsert_mem tm (pfx ++ ig.name) team e hin with rfl | hold
              · right
                obtain ⟨_, _, _, hOrgs, _, _, _, ext, hTeams, _⟩ :=
                  phase1_frame cl pfx parentName pid skip rest sA tmA trR sMid tmOut hrec
                rw [hTeams, hOrgs]
                exact findTeam_append sA.teams ext sA.orgs _ parentName team hfind
              · exact Or.inl hold
            · exact Or.inr hfound

theorem phase1_keys (cl : Bool) (pfx parentName : String) (pid : Nat) (skip : List String) :
    ∀ (igs : List IGroup) (s : RemoteState) (tm : TeamMap) (TR : Trace)
      (sMid : RemoteState) (tmOut : TeamMap),
    phase1 cl pfx parentName pid skip s tm igs = (TR, .ok (sMid, tmOut)) →
    (tm.map Prod.fst).Nodup → (tmOut.map Prod.fst).Nodup := by
  intro igs
  induction igs with
  | nil =>
    intro s tm TR sMid tmOut h hnd
    simp only [phase1, Prod.mk.injEq, Except.ok.injEq] at h
    rwa [← h.2.2]
  | cons ig rest ih =>
    intro s tm TR sMid tmOut h hnd
    rw [phase1] at h
    by_cases hskip : ig.name ∈ skip
    · rw [if_pos hskip] at h
      exact ih s tm TR sMid tmOut h hnd
    · rw [if_neg hskip] at h
      cases hp : processIG cl pfx parentName pid s tm ig with
      | mk trP resP =>
        rw [hp] at h
        cases resP with
        | error e2 => simp at h
        | ok q =>
          rcases q with ⟨sA, tmA⟩
          simp only [] at h
          cases hrec : phase1 cl pfx parentName pid skip sA tmA rest with
          | mk trR resR =>
            rw [hrec] at h
            simp only [Prod.mk.injEq] at h
            obtain ⟨rid, team, _, _, htmA, _, _, _⟩ :=
              processIG_ok cl pfx parentName pid s tm ig trP sA tmA hp
            rw [h.2] at hrec
            refine ih sA tmA trR sMid tmOut hrec ?_
            rw [htmA]
            exact tmInsert_keys_nodup tm (pfx ++ ig.name) team hnd

theorem phase1_teamIds (cl : Bool) (pfx parentName : String) (pid : Nat) (skip : List String) :
    ∀ (igs : List IGroup) (s : RemoteState) (tm : TeamMap) (TR : Trace)
      (sMid : RemoteState) (tmOut : TeamMap),
    phase1 cl pfx parentName pid skip s tm igs = (TR, .ok (sMid, tmOut)) →
    (s.teams.map TeamObj.id).Nodup → (∀ t ∈ s.teams, t.id < s.nextTeamId) →
    (sMid.teams.map TeamObj.id).Nodup ∧ ∀ t ∈ sMid.teams, t.id < sMid.nextTeamId := by
  intro igs
  induction igs with
  | nil =>
    intro s tm TR sMid tmOut h h1 h2
    simp only [phase1, Prod.mk.injEq, Except.ok.injEq] at h
    rw [← h.2.1]
    exact ⟨h1, h2⟩
  | cons ig rest ih =>
    intro s tm TR sMid tmOut h h1 h2
    rw [phase1] at h
    by_cases hskip : ig.name ∈ skip
    · rw [if_pos hskip] at h
      exact ih s tm TR sMid tmOut h h1 h2
    · rw [if_neg hskip] at h
      cases hp : processIG cl pfx parentName pid s tm ig with
      | mk trP resP =>
        rw [hp] at h
        cases resP with
        | error e2 => simp at h
        | ok q =>
          rcases q with ⟨sA, tmA⟩
          simp only [] at h
          cases hrec : phase1 cl pfx parentName pid skip sA tmA rest with
          | mk trR resR =>
            rw [hrec] at h
            simp only [Prod.mk.injEq] at h
            obtain ⟨rid, team, _, _, _, _, _, hbranch⟩ :=
              processIG_ok cl pfx parentName pid s tm ig trP sA tmA hp
            rw [h.2] at hrec
            rcases hbranch with ⟨rfl, _⟩ | ⟨rfl, _⟩
            · exact ih _ tmA trR sMid tmOut hrec h1 h2
            · obtain ⟨hA1, hA2⟩ := addTeam_ids s (pfx ++ ig.name) pid h1 h2
              exact ih _ tmA trR sMid tmOut hrec hA1 hA2

/-! ### Reconciliation-loop lemmas (phase 3). -/

theorem removeLoop_trace (m : Option Nat) (tgt : List Nat) :
    ∀ (l : List Nat) (s : RemoteState) (lk : Option Nat) (cur : List Nat),
    ∀ c ∈ (removeLoop m tgt s lk cur l).1, ∃ u, c = Call.userRoleDisassoc u m := by
  intro l
  induction l with
  | nil => intro s lk cur c hc; cases hc
  | cons tu rest ih =>
    intro s lk cur c hc
    simp only [removeLoop] at hc
    by_cases ht : tu ∈ tgt
    · rw [if_pos ht] at hc
      exact ih s lk (cur ++ [tu]) c hc
    · rw [if_neg ht] at hc
      cases lk with
      | none => simp at hc
      | some uid =>
        cases m with
        | none =>
          simp only [List.mem_singleton] at hc
          exact ⟨uid, hc⟩
        | some r =>
          simp only [List.mem_cons] at hc
          rcases hc with rfl | hc
          · exact ⟨uid, rfl⟩
          · exact ih _ (some uid) cur c hc

theorem removeLoop_ok (m : Option Nat) (tgt : List Nat) :
    ∀ (l : List Nat) (s : RemoteState) (lk : Option Nat) (cur : List Nat)
      (tr : Trace) (s2 : RemoteState) (cur2 : List Nat),
    removeLoop m tgt s lk cur l = (tr, .ok (s2, cur2)) →
    SameSkeleton s s2 ∧ ∀ r2 : Nat, m ≠ some r2 → s2.roleHolders r2 = s.roleHolders r2 := by
  intro l
  induction l with
  | nil =>
    intro s lk cur tr s2 cur2 h
    simp only [removeLoop] at h
    simp only [Prod.mk.injEq, Except.ok.injEq] at h
    rw [← h.2.1]
    exact ⟨sameSkeleton_refl s, fun _ _ => rfl⟩
  | cons tu rest ih =>
    intro s lk cur tr s2 cur2 h
    simp only [removeLoop] at h
    by_cases ht : tu ∈ tgt
    · rw [if_pos ht] at h
      exact ih s lk (cur ++ [tu]) tr s2 cur2 h
    · rw [if_neg ht] at h
      cases lk with
      | none => simp at h
      | some uid =>
        cases m with
        | none => simp at h
        | some r =>
          simp only [Prod.mk.injEq] at h
          cases hrec : removeLoop (some r) tgt (disassocHolders s uid r) (some uid) cur rest with
          | mk trR resR =>
            rw [hrec] at h
            simp only [] at h
            rw [h.2] at hrec
            obtain ⟨hsk, hout⟩ := ih _ (some uid) cur trR s2 cur2 hrec
            refine ⟨sameSkeleton_trans s _ s2 (disassocHolders_skeleton s uid r) hsk, ?_⟩
            intro r2 hr2
            rw [hout r2 hr2, disassocHolders_ne s uid r r2 ?_]
            intro hEq
            exact hr2 (by rw [hEq])

theorem removeLoop_nil_trace (m : Option Nat) (tgt : List Nat) :
    ∀ (l : List Nat) (s : RemoteState) (lk : Option Nat) (cur : List Nat)
      (s2 : RemoteState) (cur2 : List Nat),
    removeLoop m tgt s lk cur l = ([], .ok (s2, cur2)) →
    s2 = s ∧ cur2 = cur ++ l ∧ ∀ x ∈ l, x ∈ tgt := by
  intro l
  induction l with
  | nil =>
    intro s lk cur s2 cur2 h
    simp only [removeLoop] at h
    simp only [Prod.mk.injEq, Except.ok.injEq] at h
    exact ⟨h.2.1.symm, by rw [← h.2.2]; simp, by intro x hx; cases hx⟩
  | cons tu rest ih =>
    intro s lk cur s2 cur2 h
    simp only [removeLoop] at h
    by_cases ht : tu ∈ tgt
    · rw [if_pos ht] at h
      obtain ⟨h1, h2, h3⟩ := ih s lk (cur ++ [tu]) s2 cur2 h
      refine ⟨h1, by rw [h2, List.append_assoc]; rfl, ?_⟩
      intro x hx
      rcases List.mem_cons.mp hx with rfl | hx
      · exact ht
      · exact h3 x hx
    · rw [if_neg ht] at h
      cases lk with
      | none => simp at h
      | some uid =>
        cases m with
        | none => simp at h
        | some r =>
          simp only [Prod.mk.injEq] at h
          exact absurd h.1 (by simp)

theorem removeLoop_build (m : Option Nat) (tgt : List Nat) :
    ∀ (l : List Nat) (s : RemoteState) (lk : Option Nat) (cur : List Nat),
    (∀ x ∈ l, x ∈ tgt) →
    removeLoop m tgt s lk cur l = ([], .ok (s, cur ++ l)) := by
  intro l
  induction l with
  | nil => intro s lk cur _; simp [removeLoop]
  | cons tu rest ih =>
    intro s lk cur hall
    simp only [removeLoop]
    rw [if_pos (hall tu (List.mem_cons_self tu rest))]
    rw [ih s lk (cur ++ [tu]) (fun x hx => hall x (List.mem_cons_of_mem tu hx))]
    rw [List.append_assoc]
    rfl

theorem addLoop_trace (m : Option Nat) (cur : List Nat) :
    ∀ (l : List Nat) (s : RemoteState),
    ∀ c ∈ (addLoop m cur s l).1, ∃ u, c = Call.userRoleAssoc u m := by
  intro l
  induction l with
  | nil => intro s c hc; cases hc
  | cons uid rest ih =>
    intro s c hc
    simp only [addLoop] at hc
    by_cases hu : uid ∈ cur
    · rw [if_pos hu] at hc
      cases hrec : addLoop m cur s rest with
      | mk trA resA =>
        rw [hrec] at hc
        cases resA with
        | error e =>
          simp only [] at hc
          have := ih s c (by rw [hrec]; exact hc)
          exact this
        | ok q =>
          rcases q with ⟨s1, lk⟩
          simp only [] at hc
          exact ih s c (by rw [hrec]; exact hc)
    · rw [if_neg hu] at hc
      cases m with
      | none =>
        simp only [List.mem_singleton] at hc
        exact ⟨uid, hc⟩
      | some r =>
        simp only [] at hc
        cases hrec : addLoop (some r) cur (assocHolders s uid r) rest with
        | mk trA resA =>
          rw [hrec] at hc
          cases resA with
          | error e =>
            simp only [List.mem_cons] at hc
            rcases hc with rfl | hc
            · exact ⟨uid, rfl⟩
            · exact ih _ c (by rw [hrec]; exact hc)
          | ok q =>
            rcases q with ⟨s1, lk⟩
            simp only [List.mem_cons] at hc
            rcases hc with rfl | hc
            · exact ⟨uid, rfl⟩
            · exact ih _ c (by rw [hrec]; exact hc)

theorem addLoop_ok (m : Option Nat) (cur : List Nat) :
    ∀ (l : List Nat) (s : RemoteState) (tr : Trace) (s2 : RemoteState) (lk2 : Option Nat),
    addLoop m cur s l = (tr, .ok (s2, lk2)) →
    SameSkeleton s s2
    ∧ (∀ r2 : Nat, m ≠ some r2 → s2.roleHolders r2 = s.roleHolders r2)
    ∧ (∀ r, m = some r → ∀ x, x ∈ s2.roleHolders r ↔
        (x ∈ s.roleHolders r ∨ (x ∈ l ∧ x ∉ cur)))
    ∧ (m = none → s2 = s ∧ ∀ x ∈ l, x ∈ cur) := by
  intro l
  induction l with
  | nil =>
    intro s tr s2 lk2 h
    simp only [addLoop] at h
    simp only [Prod.mk.injEq, Except.ok.injEq] at h
    rw [← h.2.1]
    exact ⟨sameSkeleton_refl s, fun _ _ => rfl,
      fun r _ x => by simp, fun _ => ⟨rfl, by intro x hx; cases hx⟩⟩
  | cons uid rest ih =>
    intro s tr s2 lk2 h
    simp only [addLoop] at h
    by_cases hu : uid ∈ cur
    · rw [if_pos hu] at h
      cases hrec : addLoop m cur s rest with
      | mk trA resA =>
        rw [hrec] at h
        cases resA with
        | error e => simp at h
        | ok q =>
          rcases q with ⟨s1, lk⟩
          simp only [Prod.mk.injEq, Except.ok.injEq] at h
          obtain ⟨hsk, hout, hiff, hnone⟩ := ih s trA s1 lk hrec
          rw [← h.2.1]
          refine ⟨hsk, hout, ?_, ?_⟩
          · intro r hr x
            rw [hiff r hr x]
            constructor
            · rintro (hx | ⟨hx1, hx2⟩)
              · exact Or.inl hx
              · exact Or.inr ⟨List.mem_cons_of_mem uid hx1, hx2⟩
            · rintro (hx | ⟨hx1, hx2⟩)
              · exact Or.inl hx
              · rcases List.mem_cons.mp hx1 with rfl | hx1
                · exact absurd hu hx2
                · exact Or.inr ⟨hx1, hx2⟩
          · intro hm
            obtain ⟨hs1, hall⟩ := hnone hm
            refine ⟨hs1, ?_⟩
            intro x hx
            rcases List.mem_cons.mp hx with rfl | hx
            · exact hu
            · exact hall x hx
    · rw [if_neg hu] at h
      cases m with
      | none => simp at h
      | some r =>
        simp only [] at h
        cases hrec : addLoop (some r) cur (assocHolders s uid r) rest with
        | mk trA resA =>
          rw [hrec] at h
          cases resA with
          | error e => simp at h
          | ok q =>
            rcases q with ⟨s1, lk⟩
            simp only [Prod.mk.injEq, Except.ok.injEq] at h
            obtain ⟨hsk, hout, hiff, _⟩ := ih _ trA s1 lk hrec
            rw [← h.2.1]
            refine ⟨sameSkeleton_trans s _ s1 (assocHolders_skeleton s uid r) hsk,
              ?_, ?_, by intro hm; cases hm⟩
            · intro r2 hr2
              rw [hout r2 hr2, assocHolders_ne s uid r r2 ?_]
              intro hEq
              exact hr2 (by rw [hEq])
            · intro r2 hr2 x
              injection hr2 with hr2
              subst hr2
              rw [hiff r rfl x, assocHolders_self_mem s uid r x]
              constructor
              · rintro ((hx | rfl) | ⟨hx1, hx2⟩)
                · exact Or.inl hx
                · exact Or.inr ⟨List.mem_cons_self _ _, hu⟩
                · exact Or.inr ⟨List.mem_cons_of_mem uid hx1, hx2⟩
              · rintro (hx | ⟨hx1, hx2⟩)
                · exact Or.inl (Or.inl hx)
                · rcases List.mem_cons.mp hx1 with rfl | hx1
                  · exact Or.inl (Or.inr rfl)
                  · exact Or.inr ⟨hx1, hx2⟩

theorem addLoop_build (m : Option Nat) (cur : List Nat) :
    ∀ (l : List Nat) (s : RemoteState), (∀ x ∈ l, x ∈ cur) →
    ∃ lk2, addLoop m cur s l = ([], .ok (s, lk2)) := by
  intro l
  induction l with
  | nil => intro s _; exact ⟨none, rfl⟩
  | cons uid rest ih =>
    intro s hall
    obtain ⟨lk2, hrec⟩ := ih s (fun x hx => hall x (List.mem_cons_of_mem uid hx))
    refine ⟨lk2.orElse fun _ => some uid, ?_⟩
    simp only [addLoop]
    rw [if_pos (hall uid (List.mem_cons_self uid rest)), hrec]

/-! ### Phase-3 lemmas. -/

theorem phase3_skeleton (al : AllowedMap) :
    ∀ (tml : TeamMap) (s : RemoteState) (lk : Option Nat) (tr : Trace) (s2 : RemoteState),
    phase3 al s lk tml = (tr, .ok s2) → SameSkeleton s s2 := by
  intro tml
  induction tml with
  | nil =>
    intro s lk tr s2 h
    simp only [phase3, Prod.mk.injEq, Except.ok.injEq] at h
    rw [← h.2]
    exact sameSkeleton_refl s
  | cons e rest ih =>
    rcases e with ⟨tn, tobj⟩
    intro s lk tr s2 h
    simp only [phase3] at h
    cases halu : alLookup al tn with
    | none => rw [halu] at h; simp at h
    | some p =>
      rcases p with ⟨tid, users⟩
      rw [halu] at h
      simp only [] at h
      cases hrem : removeLoop (memberRidOf s tid) users s lk [] (teamUsersOf s tid) with
      | mk trR resR =>
        rw [hrem] at h
        cases resR with
        | error e2 => simp at h
        | ok q =>
          rcases q with ⟨s1, cur⟩
          simp only [] at h
          cases hadd : addLoop (memberRidOf s tid) cur s1 users.dedup with
          | mk trA resA =>
            rw [hadd] at h
            cases resA with
            | error e2 => simp at h
            | ok q2 =>
              rcases q2 with ⟨s2x, lk2⟩
              simp only [] at h
              cases hrec : phase3 al s2x (lk2.orElse fun _ => lk) rest with
              | mk trP resP =>
                rw [hrec] at h
                simp only [Prod.mk.injEq] at h
                rw [h.2] at hrec
                obtain ⟨hsk1, _⟩ :=
                  removeLoop_ok (memberRidOf s tid) users (teamUsersOf s tid) s lk [] trR s1 cur hrem
                obtain ⟨hsk2, _, _, _⟩ :=
                  addLoop_ok (memberRidOf s tid) cur users.dedup s1 trA s2x lk2 hadd
                exact sameSkeleton_trans s s1 s2 hsk1
                  (sameSkeleton_trans s1 s2x s2 hsk2 (ih s2x _ trP s2 hrec))

theorem phase3_outside (al : AllowedMap) :
    ∀ (tml : TeamMap) (s : RemoteState) (lk : Option Nat) (tr : Trace) (s2 : RemoteState),
    phase3 al s lk tml = (tr, .ok s2) →
    (∀ e ∈ tml, ∃ us, alLookup al e.1 = some (e.2.id, us)) →
    ∀ r : Nat, (∀ e ∈ tml, memberRidOf s e.2.id ≠ some r) →
    s2.roleHolders r = s.roleHolders r := by
  intro tml
  induction tml with
  | nil =>
    intro s lk tr s2 h hAl r hr
    simp only [phase3, Prod.mk.injEq, Except.ok.injEq] at h
    rw [← h.2]
  | cons e rest ih =>
    rcases e with ⟨tn, tobj⟩
    intro s lk tr s2 h hAl r hr
    obtain ⟨usH, haluH⟩ := hAl (tn, tobj) (List.mem_cons_self _ _)
    simp only [phase3] at h
    rw [haluH] at h
    simp only [] at h
    cases hrem : removeLoop (memberRidOf s tobj.id) usH s lk [] (teamUsersOf s tobj.id) with
    | mk trR resR =>
      rw [hrem] at h
      cases resR with
      | error e2 => simp at h
      | ok q =>
        rcases q with ⟨s1, cur⟩
        simp only [] at h
        cases hadd : addLoop (memberRidOf s tobj.id) cur s1 usH.dedup with
        | mk trA resA =>
          rw [hadd] at h
          cases resA with
          | error e2 => simp at h
          | ok q2 =>
            rcases q2 with ⟨s2x, lk2⟩
            simp only [] at h
            cases hrec : phase3 al s2x (lk2.orElse fun _ => lk) rest with
            | mk trP resP =>
              rw [hrec] at h
              simp only [Prod.mk.injEq] at h
              rw [h.2] at hrec
              have hmr : memberRidOf s tobj.id ≠ some r :=
                hr (tn, tobj) (List.mem_cons_self _ _)
              obtain ⟨hsk1, hout1⟩ :=
                removeLoop_ok (memberRidOf s tobj.id) usH (teamUsersOf s tobj.id) s lk [] trR s1 cur hrem
              obtain ⟨hsk2, hout2, _, _⟩ :=
                addLoop_ok (memberRidOf s tobj.id) cur usH.dedup s1 trA s2x lk2 hadd
              have hskx : SameSkeleton s s2x := sameSkeleton_trans s s1 s2x hsk1 hsk2
              have hrecOut := ih s2x _ trP s2 hrec
                (fun e2 he2 => hAl e2 (List.mem_cons_of_mem _ he2)) r ?_
              · rw [hrecOut, hout2 r hmr, hout1 r hmr]
              · intro e2 he2
                rw [memberRidOf_congr s s2x hskx.2.2.2.1 e2.2.id]
                exact hr e2 (List.mem_cons_of_mem _ he2)

theorem phase3_trace (al : AllowedMap) :
    ∀ (tml : TeamMap) (s : RemoteState) (lk : Option Nat),
    ∀ c ∈ (phase3 al s lk tml).1,
    ∃ u tid, c = Call.userRoleAssoc u (memberRidOf s tid)
      ∨ c = Call.userRoleDisassoc u (memberRidOf s tid) := by
  intro tml
  induction tml with
  | nil => intro s lk c hc; cases hc
  | cons e rest ih =>
    rcases e with ⟨tn, tobj⟩
    intro s lk c hc
    simp only [phase3] at hc
    cases halu : alLookup al tn with
    | none => rw [halu] at hc; simp at hc
    | some p =>
      rcases p with ⟨tid, users⟩
      rw [halu] at hc
      simp only [] at hc
      cases hrem : removeLoop (memberRidOf s tid) users s lk [] (teamUsersOf s tid) with
      | mk trR resR =>
        rw [hrem] at hc
        cases resR with
        | error e2 =>
          simp only [] at hc
          obtain ⟨u, hu⟩ := removeLoop_trace (memberRidOf s tid) users
            (teamUsersOf s tid) s lk [] c (by rw [hrem]; exact hc)
          exact ⟨u, tid, Or.inr hu⟩
        | ok q =>
          rcases q with ⟨s1, cur⟩
          simp only [] at hc
          cases hadd : addLoop (memberRidOf s tid) cur s1 users.dedup with
          | mk trA resA =>
            rw [hadd] at hc
            cases resA with
            | error e2 =>
              simp only [List.mem_append] at hc
              rcases hc with hc | hc
              · obtain ⟨u, hu⟩ := removeLoop_trace (memberRidOf s tid) users
                  (teamUsersOf s tid) s lk [] c (by rw [hrem]; exact hc)
                exact ⟨u, tid, Or.inr hu⟩
              · obtain ⟨u, hu⟩ := addLoop_trace (memberRidOf s tid) cur
                  users.dedup s1 c (by rw [hadd]; exact hc)
                exact ⟨u, tid, Or.inl hu⟩
            | ok q2 =>
              rcases q2 with ⟨s2x, lk2⟩
              simp only [List.append_assoc, List.mem_append] at hc
              obtain ⟨hsk1, _⟩ :=
                removeLoop_ok (memberRidOf s tid) users (teamUsersOf s tid) s lk [] trR s1 cur hrem
              obtain ⟨hsk2, _, _, _⟩ :=
                addLoop_ok (memberRidOf s tid) cur users.dedup s1 trA s2x lk2 hadd
              have hskx : SameSkeleton s s2x := sameSkeleton_trans s s1 s2x hsk1 hsk2
              rcases hc with hc | hc | hc
              · obtain ⟨u, hu⟩ := removeLoop_trace (memberRidOf s tid) users
                  (teamUsersOf s tid) s lk [] c (by rw [hrem]; exact hc)
                exact ⟨u, tid, Or.inr hu⟩
              · obtain ⟨u, hu⟩ := addLoop_trace (memberRidOf s tid) cur
                  users.dedup s1 c (by rw [hadd]; exact hc)
                exact ⟨u, tid, Or.inl hu⟩
              · obtain ⟨u, tid2, hu⟩ := ih s2x (lk2.orElse fun _ => lk) c hc
                rw [memberRidOf_congr s s2x hskx.2.2.2.1 tid2] at hu
                exact ⟨u, tid2, hu⟩

theorem phase3_build (al : AllowedMap) :
    ∀ (tml : TeamMap) (s : RemoteState) (lk : Option Nat),
    (∀ e ∈ tml, ∃ us, alLookup al e.1 = some (e.2.id, us)
        ∧ ∀ x : Nat, x ∈ teamUsersOf s e.2.id ↔ x ∈ us) →
    phase3 al s lk tml = ([], .ok s) := by
  intro tml
  induction tml with
  | nil => intro s lk _; rfl
  | cons e rest ih =>
    rcases e with ⟨tn, tobj⟩
    intro s lk hall
    obtain ⟨us, halu, hview⟩ := hall (tn, tobj) (List.mem_cons_self _ _)
    have hrem : removeLoop (memberRidOf s tobj.id) us s lk [] (teamUsersOf s tobj.id) =
        ([], .ok (s, [] ++ teamUsersOf s tobj.id)) :=
      removeLoop_build (memberRidOf s tobj.id) us (teamUsersOf s tobj.id) s lk []
        (fun x hx => (hview x).mp hx)
    have hsub : ∀ x ∈ us.dedup, x ∈ ([] : List Nat) ++ teamUsersOf s tobj.id := by
      intro x hx
      rw [List.nil_append]
      exact (hview x).mpr (List.mem_dedup.mp hx)
    obtain ⟨lk2, hadd⟩ :=
      addLoop_build (memberRidOf s tobj.id) ([] ++ teamUsersOf s tobj.id) us.dedup s hsub
    have hrec : phase3 al s (lk2.orElse fun _ => lk) rest = ([], .ok s) :=
      ih s _ (fun e2 he2 => hall e2 (List.mem_cons_of_mem _ he2))
    simp only [phase3]
    rw [halu]
    simp only []
    rw [hrem]
    simp only []
    rw [hadd]
    simp only []
    rw [hrec]
    rfl

theorem phase3_converge (al : AllowedMap) :
    ∀ (tml : TeamMap) (s : RemoteState) (lk : Option Nat) (tr : Trace) (s2 : RemoteState),
    phase3 al s lk tml = (tr, .ok s2) →
    (∀ c ∈ tr, ∀ u rid, c ≠ Call.userRoleDisassoc u rid) →
    (∀ e ∈ tml, ∃ us, alLookup al e.1 = some (e.2.id, us)) →
    (tml.map Prod.fst).Nodup →
    (∀ e ∈ tml, ∀ e2 ∈ tml, e.1 ≠ e2.1 → ∀ r : Nat,
        memberRidOf s e.2.id = some r → memberRidOf s e2.2.id ≠ some r) →
    ∀ e ∈ tml, ∀ us, alLookup al e.1 = some (e.2.id, us) →
    ∀ x : Nat, x ∈ teamUsersOf s2 e.2.id ↔ x ∈ us := by
  intro tml
  induction tml with
  | nil =>
    intro s lk tr s2 h hNoDis hAl hnd hIds e he
    cases he
  | cons e0 rest ih =>
    rcases e0 with ⟨tn, tobj⟩
    intro s lk tr s2 h hNoDis hAl hnd hIds e he us2 halu2 x
    obtain ⟨usH, haluH⟩ := hAl (tn, tobj) (List.mem_cons_self _ _)
    simp only [phase3] at h
    rw [haluH] at h
    simp only [] at h
    cases hrem : removeLoop (memberRidOf s tobj.id) usH s lk [] (teamUsersOf s tobj.id) with
    | mk trR resR =>
      rw [hrem] at h
      cases resR with
      | error e2 => simp at h
      | ok q =>
        rcases q with ⟨s1, cur⟩
        simp only [] at h
        cases hadd : addLoop (memberRidOf s tobj.id) cur s1 usH.dedup with
        | mk trA resA =>
          rw [hadd] at h
          cases resA with
          | error e2 => simp at h
          | ok q2 =>
            rcases q2 with ⟨s2x, lk2⟩
            simp only [] at h
            cases hrec : phase3 al s2x (lk2.orElse fun _ => lk) rest with
            | mk trP resP =>
              rw [hrec] at h
              simp only [Prod.mk.injEq] at h
              rw [h.2] at hrec
              have htr : trR ++ trA ++ trP = tr := by
                rw [← h.1, List.append_assoc]
              have hsubR : ∀ c ∈ trR, c ∈ tr := by
                intro c hc
                rw [← htr]
                exact List.mem_append_left _ (List.mem_append_left _ hc)
              have hsubA : ∀ c ∈ trA, c ∈ tr := by
                intro c hc
                rw [← htr]
                exact List.mem_append_left _ (List.mem_append_right _ hc)
              have hsubP : ∀ c ∈ trP, c ∈ tr := by
                intro c hc
                rw [← htr]
                exact List.mem_append_right _ hc
              have htrR : trR = [] := by
                rw [List.eq_nil_iff_forall_not_mem]
                intro c hc
                obtain ⟨u, hu⟩ := removeLoop_trace (memberRidOf s tobj.id) usH
                  (teamUsersOf s tobj.id) s lk [] c (by rw [hrem]; exact hc)
                exact hNoDis c (hsubR c hc) u (memberRidOf s tobj.id) hu
              subst htrR
              obtain ⟨hs1, hcur, hfetch⟩ := removeLoop_nil_trace (memberRidOf s tobj.id) usH
                (teamUsersOf s tobj.id) s lk [] s1 cur hrem
              rw [hs1] at hadd
              rw [List.nil_append] at hcur
              obtain ⟨hsk2, hout2, hiff2, hnone2⟩ :=
                addLoop_ok (memberRidOf s tobj.id) cur usH.dedup s trA s2x lk2 hadd
              have hskP : SameSkeleton s2x s2 := phase3_skeleton al rest s2x _ trP s2 hrec
              have hskAll : SameSkeleton s s2 := sameSkeleton_trans s s2x s2 hsk2 hskP
              rcases List.mem_cons.mp he with heq | he2
              · -- the head team: its membership converged to us2
                subst heq
                simp only [] at halu2
                rw [haluH] at halu2
                injection halu2 with halu3
                injection halu3 with _ hus
                subst hus
                simp only []
                have hmrEq : memberRidOf s2 tobj.id = memberRidOf s tobj.id :=
                  memberRidOf_congr s s2 hskAll.2.2.2.1 tobj.id
                cases hm : memberRidOf s tobj.id with
                | none =>
                  have hview2 : teamUsersOf s2 tobj.id = [] := by
                    unfold teamUsersOf
                    rw [hmrEq, hm]
                  obtain ⟨_, hallin⟩ := hnone2 hm
                  have hcur0 : cur = [] := by
                    rw [hcur]
                    unfold teamUsersOf
                    rw [hm]
                  rw [hview2]
                  constructor
                  · intro hx
                    cases hx
                  · intro hx
                    have hx2 := hallin x (List.mem_dedup.mpr hx)
                    rw [hcur0] at hx2
                    cases hx2
                | some r =>
                  have hview2 : teamUsersOf s2 tobj.id = s2.roleHolders r := by
                    unfold teamUsersOf
                    rw [hmrEq, hm]
                  have hfetchEq : teamUsersOf s tobj.id = s.roleHolders r := by
                    unfold teamUsersOf
                    rw [hm]
                  have hpre : s2.roleHolders r = s2x.roleHolders r := by
                    apply phase3_outside al rest s2x _ trP s2 hrec
                      (fun e3 he3 => hAl e3 (List.mem_cons_of_mem _ he3)) r
                    intro e3 he3
                    rw [memberRidOf_congr s s2x hsk2.2.2.2.1 e3.2.id]
                    have hkey : e3.1 ≠ tn := by
                      intro hEq
                      have hmem2 : tn ∈ rest.map Prod.fst :=
                        List.mem_map.mpr ⟨e3, he3, hEq⟩
                      exact (List.nodup_cons.mp (by simpa using hnd)).1 hmem2
                    exact hIds (tn, tobj) (List.mem_cons_self _ _) e3
                      (List.mem_cons_of_mem _ he3) (Ne.symm hkey) r hm
                  rw [hview2, hpre, hiff2 r hm x]
                  constructor
                  · rintro (hx | ⟨hx1, _⟩)
                    · refine hfetch x ?_
                      rw [hfetchEq]
                      exact hx
                    · exact List.mem_dedup.mp hx1
                  · intro hx
                    by_cases hin : x ∈ s.roleHolders r
                    · exact Or.inl hin
                    · refine Or.inr ⟨List.mem_dedup.mpr hx, ?_⟩
                      rw [hcur, hfetchEq]
                      exact hin
              · -- a later team: the induction hypothesis applies at s2x
                have hIds2 : ∀ e3 ∈ rest, ∀ e4 ∈ rest, e3.1 ≠ e4.1 → ∀ r : Nat,
                    memberRidOf s2x e3.2.id = some r → memberRidOf s2x e4.2.id ≠ some r := by
                  intro e3 he3 e4 he4 hne r h3
                  rw [memberRidOf_congr s s2x hsk2.2.2.2.1 e3.2.id] at h3
                  rw [memberRidOf_congr s s2x hsk2.2.2.2.1 e4.2.id]
                  exact hIds e3 (List.mem_cons_of_mem _ he3) e4 (List.mem_cons_of_mem _ he4)
                    hne r h3
                exact ih s2x _ trP s2 hrec
                  (fun c hc u rid => hNoDis c (hsubP c hc) u rid)
                  (fun e3 he3 => hAl e3 (List.mem_cons_of_mem _ he3))
                  (List.nodup_cons.mp (by simpa using hnd)).2
                  hIds2 e he2 us2 halu2 x

/-! ### The second run of phase 1 only re-issues the unconditional grants. -/

theorem phase2_roles_nil (f : Nat → String → List Nat) (tm : TeamMap) :
    ∀ orgs : List OrgObj, phase2 f [] tm orgs = [] := by
  intro orgs
  unfold phase2
  induction orgs with
  | nil => rfl
  | cons o os ih =>
    rw [List.foldl_cons]
    exact ih

theorem phase3_ok_head (al : AllowedMap) (tn : String) (tobj : TeamObj) (rest : TeamMap)
    (s : RemoteState) (lk : Option Nat) (tr : Trace) (s2 : RemoteState)
    (h : phase3 al s lk ((tn, tobj) :: rest) = (tr, .ok s2)) :
    ∃ p, alLookup al tn = some p := by
  simp only [phase3] at h
  cases halu : alLookup al tn with
  | none => rw [halu] at h; simp at h
  | some p => exact ⟨p, rfl⟩

theorem phase1_rerun (cl : Bool) (pfx parentName : String) (pid : Nat) (skip : List String) :
    ∀ (igs : List IGroup) (s sF : RemoteState) (tmAcc : TeamMap) (TR : Trace)
      (sMid : RemoteState) (tmOut : TeamMap) (ext : List TeamObj),
    phase1 cl pfx parentName pid skip s tmAcc igs = (TR, .ok (sMid, tmOut)) →
    sF.teams = sMid.teams ++ ext →
    sF.orgs = s.orgs →
    sF.igObjectRoles = s.igObjectRoles →
    (∀ ig ∈ igs, ig.name ∉ skip → ∀ rid : Nat, useRidOf s ig.id = some rid →
        cl = true → sF.roleHolders rid = []) →
    ∃ TR2, phase1 cl pfx parentName pid skip sF tmAcc igs = (TR2, .ok (sF, tmOut))
      ∧ ∀ c ∈ TR2, ∃ tid rid, c = Call.teamRoleAssoc tid rid := by
  intro igs
  induction igs with
  | nil =>
    intro s sF tmAcc TR sMid tmOut ext h _ _ _ _
    simp only [phase1, Prod.mk.injEq, Except.ok.injEq] at h
    refine ⟨[], ?_, by intro c hc; cases hc⟩
    rw [← h.2.2]
    rfl
  | cons ig rest ih =>
    intro s sF tmAcc TR sMid tmOut ext h hTeams hOrgs hIGR hClean
    rw [phase1] at h
    by_cases hskip : ig.name ∈ skip
    · rw [if_pos hskip] at h
      obtain ⟨TR2, hrun, hsh⟩ := ih s sF tmAcc TR sMid tmOut ext h hTeams hOrgs hIGR
        (fun ig2 h2 => hClean ig2 (List.mem_cons_of_mem _ h2))
      refine ⟨TR2, ?_, hsh⟩
      rw [phase1, if_pos hskip]
      exact hrun
    · rw [if_neg hskip] at h
      cases hp : processIG cl pfx parentName pid s tmAcc ig with
      | mk trP resP =>
        rw [hp] at h
        cases resP with
        | error e => simp at h
        | ok q =>
          rcases q with ⟨sA, tmA⟩
          simp only [] at h
          cases hrec : phase1 cl pfx parentName pid skip sA tmA rest with
          | mk trR resR =>
            rw [hrec] at h
            simp only [Prod.mk.injEq] at h
            rw [h.2] at hrec
            obtain ⟨rid, team, hu, hclean1, htmA, hfindA, hframeA, hbranch⟩ :=
              processIG_ok cl pfx parentName pid s tmAcc ig trP sA tmA hp
            have hu2 : useRidOf sF ig.id = some rid :=
              (useRidOf_congr s sF hIGR ig.id).trans hu
            have hclean2 : cl = true → sF.roleHolders rid = [] :=
              fun hcl => hClean ig (List.mem_cons_self _ _) hskip rid hu hcl
            obtain ⟨_, _, _, hOrgsA, _, _, _, extA, hTeamsA, _⟩ :=
              phase1_frame cl pfx parentName pid skip rest sA tmA trR sMid tmOut hrec
            have hOrgsF : sF.orgs = sA.orgs := hOrgs.trans hframeA.2.2.2.1.symm
            have hIGR2 : sF.igObjectRoles = sA.igObjectRoles :=
              hIGR.trans hframeA.2.1.symm
            have hfind2 : findTeam sF.teams sF.orgs (pfx ++ ig.name) parentName = some team := by
              rw [hOrgsF, hTeams, hTeamsA, List.append_assoc]
              exact findTeam_append sA.teams (extA ++ ext) sA.orgs (pfx ++ ig.name)
                parentName team hfindA
            have hstep2 :=
              processIG_build cl pfx parentName pid sF tmAcc ig rid team hu2 hclean2 hfind2
            have hClean2 : ∀ ig2 ∈ rest, ig2.name ∉ skip → ∀ rid2 : Nat,
                useRidOf sA ig2.id = some rid2 → cl = true → sF.roleHolders rid2 = [] := by
              intro ig2 h2 h3 rid2 h4 hcl
              refine hClean ig2 (List.mem_cons_of_mem _ h2) h3 rid2 ?_ hcl
              rw [← useRidOf_congr s sA hframeA.2.1 ig2.id]
              exact h4
            rw [htmA] at hrec
            obtain ⟨TR2, hrun, hsh⟩ := ih sA sF (tmInsert tmAcc (pfx ++ ig.name) team)
              trR sMid tmOut ext hrec hTeams hOrgsF hIGR2 hClean2
            refine ⟨Call.teamRoleAssoc team.id (some rid) :: TR2, ?_, ?_⟩
            · rw [phase1, if_neg hskip, hstep2]
              simp only []
              rw [hrun]
              rfl
            · intro c hc
              rcases List.mem_cons.mp hc with rfl | hc
              · exact ⟨team.id, some rid, rfl⟩
              · exact hsh c hc

/-! ### C1 — amended idempotence. -/

/-- C1 (amended): over a well-formed remote state, after one successful run
that itself issued no disassociation calls, a second run against the
resulting remote issues no team create and no user-role association or
disassociation: every mutating call of the second run is one of the
unconditional per-instance-group Team Use-grant POSTs (src/main.py
line 332), which the script re-issues on every run. -/
theorem second_run_issues_only_use_grants (cfg : Config) (s0 s1 : RemoteState) (t1 : Trace)
    (hWF : WF s0)
    (hRun1 : sync cfg s0 = (t1, .ok s1))
    (hNoDis : ∀ (u : Nat) (rid : Option Nat), Call.userRoleDisassoc u rid ∉ t1) :
    ∀ c ∈ (sync cfg s1).1, ∃ tid rid, c = Call.teamRoleAssoc tid rid := by
  unfold sync at hRun1
  cases hporg : s0.orgs.find? (fun o => decide (o.name = cfg.parentOrganization)) with
  | none => rw [hporg] at hRun1; simp at hRun1
  | some org =>
    rw [hporg] at hRun1
    simp only [] at hRun1
    cases hph1 : phase1 cfg.cleanupUseRole cfg.teamPfx cfg.parentOrganization org.id
        cfg.skipList s0 [] s0.igs with
    | mk tr1 res1 =>
      rw [hph1] at hRun1
      cases res1 with
      | error e => simp at hRun1
      | ok q =>
        rcases q with ⟨sMid, tm⟩
        simp only [] at hRun1
        cases hph3 : phase3 (phase2 sMid.orgRoleUsers cfg.allowedRoles tm sMid.orgs)
            sMid none tm with
        | mk tr3 res3 =>
          rw [hph3] at hRun1
          simp only [Prod.mk.injEq] at hRun1
          cases res3 with
          | error e => exact absurd hRun1.2 (by simp)
          | ok s1x =>
            have hs1x : s1x = s1 := by
              have := hRun1.2
              injection this
            rw [hs1x] at hph3
            have htr : tr1 ++ tr3 = t1 := hRun1.1
            -- frames of the first run
            have hfr1 : Phase1Frame s0 sMid :=
              phase1_frame cfg.cleanupUseRole cfg.teamPfx cfg.parentOrganization org.id
                cfg.skipList s0.igs s0 [] tr1 sMid tm hph1
            have hsk3 : SameSkeleton sMid s1 :=
              phase3_skeleton _ tm sMid none tr3 s1 hph3
            have horgseq : s1.orgs = s0.orgs := hsk3.2.2.2.2.1.trans hfr1.2.2.2.1
            have higseq : s1.igs = s0.igs := hsk3.1.trans hfr1.1
            have higoreq : s1.igObjectRoles = s0.igObjectRoles := hsk3.2.1.trans hfr1.2.1
            have hteamseq : s1.teams = sMid.teams := hsk3.2.2.1
            have horueq : s1.orgRoleUsers = sMid.orgRoleUsers := hsk3.2.2.2.2.2.1
            -- the registry facts
            have hkeys : (tm.map Prod.fst).Nodup :=
              phase1_keys cfg.cleanupUseRole cfg.teamPfx cfg.parentOrganization org.id
                cfg.skipList s0.igs s0 [] tr1 sMid tm hph1 (by simp)
            have hfindtm : ∀ e ∈ tm,
                findTeam sMid.teams sMid.orgs e.1 cfg.parentOrganization = some e.2 := by
              intro e he
              rcases phase1_find cfg.cleanupUseRole cfg.teamPfx cfg.parentOrganization org.id
                cfg.skipList s0.igs s0 [] tr1 sMid tm hph1 e he with hin | hfound
              · cases hin
              · exact hfound
            have hids_teams : (sMid.teams.map TeamObj.id).Nodup :=
              (phase1_teamIds cfg.cleanupUseRole cfg.teamPfx cfg.parentOrganization org.id
                cfg.skipList s0.igs s0 [] tr1 sMid tm hph1 hWF.teamIdsNodup hWF.teamIdsLt).1
            -- the accumulated-membership map serves every registry entry
            have hAlOr : tm = [] ∨ (sMid.orgs ≠ [] ∧ cfg.allowedRoles ≠ []) := by
              rcases htm : tm with _ | ⟨⟨tn0, tobj0⟩, rest0⟩
              · exact Or.inl rfl
              · right
                rw [htm] at hph3
                obtain ⟨p, halu0⟩ := phase3_ok_head _ tn0 tobj0 rest0 sMid none tr3 s1 hph3
                constructor
                · intro hE
                  rw [hE] at halu0
                  exact absurd halu0 (by simp [phase2, alLookup])
                · intro hE
                  rw [hE, phase2_roles_nil] at halu0
                  exact absurd halu0 (by simp [alLookup])
            have hAl : ∀ e ∈ tm, ∃ us,
                alLookup (phase2 sMid.orgRoleUsers cfg.allowedRoles tm sMid.orgs) e.1 =
                  some (e.2.id, us) := by
              rcases hAlOr with htm | ⟨horgs, hroles⟩
              · intro e he
                rw [htm] at he
                cases he
              · intro e he
                exact ⟨_, phase2_alLookup sMid.orgRoleUsers cfg.allowedRoles tm sMid.orgs
                  e.1 e.2 hkeys he horgs hroles⟩
            -- distinct registry teams carry distinct Member roles
            have hIds : ∀ e ∈ tm, ∀ e2 ∈ tm, e.1 ≠ e2.1 → ∀ r : Nat,
                memberRidOf sMid e.2.id = some r → memberRidOf sMid e2.2.id ≠ some r := by
              intro e he e2 he2 hne r h1 h2
              rw [memberRidOf_congr s0 sMid hfr1.2.2.1 e.2.id] at h1
              rw [memberRidOf_congr s0 sMid hfr1.2.2.1 e2.2.id] at h2
              have hid := hWF.memberInj e.2.id e2.2.id r h1 h2
              obtain ⟨hm1, hn1⟩ := findTeam_some_facts sMid.teams sMid.orgs e.1
                cfg.parentOrganization e.2 (hfindtm e he)
              obtain ⟨hm2, hn2⟩ := findTeam_some_facts sMid.teams sMid.orgs e2.1
                cfg.parentOrganization e2.2 (hfindtm e2 he2)
              exact hne (by rw [← hn1, ← hn2, List.inj_on_of_nodup_map hids_teams hm1 hm2 hid])
            -- the first run converged every registry team
            have hNoDis3 : ∀ c ∈ tr3, ∀ (u : Nat) (rid : Option Nat),
                c ≠ Call.userRoleDisassoc u rid := by
              intro c hc u rid heq
              subst heq
              exact hNoDis u rid (htr ▸ List.mem_append_right tr1 hc)
            have hconv := phase3_converge _ tm sMid none tr3 s1 hph3 hNoDis3 hAl hkeys hIds
            -- cleanup lists stay empty for the second run
            have hRoleH : ∀ ig ∈ s0.igs, ig.name ∉ cfg.skipList → ∀ rid : Nat,
                useRidOf s0 ig.id = some rid → cfg.cleanupUseRole = true →
                s1.roleHolders rid = [] := by
              intro ig hig hns rid hrid hcl
              obtain ⟨rid2, hrid2, hemp⟩ := phase1_useRid cfg.cleanupUseRole cfg.teamPfx
                cfg.parentOrganization org.id cfg.skipList s0.igs s0 [] tr1 sMid tm hph1
                ig hig hns
              rw [hrid] at hrid2
              injection hrid2 with hr
              subst hr
              have hsm : sMid.roleHolders rid = [] := by
                rw [hfr1.2.2.2.2.2.1]
                exact hemp hcl
              have hout : s1.roleHolders rid = sMid.roleHolders rid := by
                refine phase3_outside _ tm sMid none tr3 s1 hph3 hAl rid ?_
                intro e2 he2
                rw [memberRidOf_congr s0 sMid hfr1.2.2.1 e2.2.id]
                exact hWF.useMemberDisjoint ig.id e2.2.id rid hrid
              rw [hout, hsm]
            -- the second run's registry pass
            obtain ⟨TR2, hD1, hsh⟩ := phase1_rerun cfg.cleanupUseRole cfg.teamPfx
              cfg.parentOrganization org.id cfg.skipList s0.igs s0 s1 [] tr1 sMid tm []
              hph1 (by rw [List.append_nil]; exact hteamseq) horgseq higoreq hRoleH
            -- the second run's reconciliation is a no-op
            have hph3run2 : phase3 (phase2 sMid.orgRoleUsers cfg.allowedRoles tm sMid.orgs)
                s1 none tm = ([], .ok s1) := by
              refine phase3_build _ tm s1 none ?_
              intro e he
              obtain ⟨us, halu⟩ := hAl e he
              exact ⟨us, halu, hconv e he us halu⟩
            -- assemble the second run
            have hfind2org : s1.orgs.find?
                (fun o => decide (o.name = cfg.parentOrganization)) = some org := by
              rw [horgseq]
              exact hporg
            have hph1run2 : phase1 cfg.cleanupUseRole cfg.teamPfx cfg.parentOrganization
                org.id cfg.skipList s1 [] s1.igs = (TR2, .ok (s1, tm)) := by
              rw [higseq]
              exact hD1
            have hal2 : phase2 s1.orgRoleUsers cfg.allowedRoles tm s1.orgs =
                phase2 sMid.orgRoleUsers cfg.allowedRoles tm sMid.orgs := by
              rw [horueq, hsk3.2.2.2.2.1]
            have hrun2 : sync cfg s1 = (TR2 ++ [], .ok s1) := by
              unfold sync
              rw [hfind2org]
              simp only []
              rw [hph1run2]
              simp only []
              rw [hal2, hph3run2]
            intro c hc
            rw [hrun2] at hc
            rw [List.append_nil] at hc
            exact hsh c hc

/-- C1 witness: on the converged fixture the first run succeeds with a single
Use-grant POST and no disassociation, and the second run's one mutating call
is a Use-grant POST. -/
theorem second_run_issues_only_use_grants_witness :
    ∃ tid rid, Call.teamRoleAssoc 1 (some 40) = Call.teamRoleAssoc tid rid := by
  have hWF : WF stateConverged := by
    refine ⟨by decide, by decide, ?_, ?_⟩
    · intro tid1 tid2 r h1 h2
      by_cases ha : tid1 = 1
      · by_cases hb : tid2 = 1
        · rw [ha, hb]
        · exfalso
          unfold memberRidOf at h2
          rw [show stateConverged.teamObjectRoles tid2 = [] from if_neg hb] at h2
          simp at h2
      · exfalso
        unfold memberRidOf at h1
        rw [show stateConverged.teamObjectRoles tid1 = [] from if_neg ha] at h1
        simp at h1
    · intro igid tid r h1 h2
      by_cases ha : igid = 3
      · by_cases hb : tid = 1
        · subst ha
          subst hb
          rw [show useRidOf stateConverged 3 = some 40 from rfl] at h1
          injection h1 with h1
          rw [show memberRidOf stateConverged 1 = some 50 from rfl] at h2
          injection h2 with h2
          omega
        · unfold memberRidOf at h2
          rw [show stateConverged.teamObjectRoles tid = [] from if_neg hb] at h2
          simp at h2
      · unfold useRidOf at h1
        rw [show stateConverged.igObjectRoles igid = [] from if_neg ha] at h1
        simp at h1
  exact second_run_issues_only_use_grants {} stateConverged stateConverged
    [Call.teamRoleAssoc 1 (some 40)] hWF rfl
    (by intro u rid h; simp at h)
    (Call.teamRoleAssoc 1 (some 40)) (by exact List.mem_singleton.mpr rfl)

/-! ### Trace characterization of the registry pass. -/

theorem string_append_cancel (p a b : String) (h : p ++ a = p ++ b) : a = b := by
  have h2 : (p ++ a).data = (p ++ b).data := congrArg String.data h
  rw [String.data_append, String.data_append] at h2
  have h3 := List.append_cancel_left h2
  cases a
  cases b
  exact congrArg String.mk h3

theorem ensureTeam_trace (s : RemoteState) (parentName : String) (pid : Nat) (tn : String) :
    ∀ c ∈ (ensureTeam s parentName pid tn).1, c = Call.createTeam tn pid := by
  intro c hc
  unfold ensureTeam at hc
  cases hf : findTeam s.teams s.orgs tn parentName with
  | some t => rw [hf] at hc; cases hc
  | none =>
    rw [hf] at hc
    simp only [] at hc
    cases hf2 : findTeam (addTeam s tn pid).teams (addTeam s tn pid).orgs tn parentName with
    | some t =>
      rw [hf2] at hc
      simp only [List.mem_singleton] at hc
      exact hc
    | none =>
      rw [hf2] at hc
      simp only [List.mem_singleton] at hc
      exact hc

theorem processIG_trace (cl : Bool) (pfx parentName : String) (pid : Nat) (s : RemoteState)
    (tm : TeamMap) (ig : IGroup) :
    ∀ c ∈ (processIG cl pfx parentName pid s tm ig).1,
    c = Call.createTeam (pfx ++ ig.name) pid
    ∨ ∃ tid, c = Call.teamRoleAssoc tid (useRidOf s ig.id) := by
  intro c hc
  unfold processIG at hc
  cases hcl : (if cl then cleanupStep s (useRidOf s ig.id) else .ok ()) with
  | error e => rw [hcl] at hc; cases hc
  | ok u =>
    rw [hcl] at hc
    cases he : ensureTeam s parentName pid (pfx ++ ig.name) with
    | mk trE resE =>
      rw [he] at hc
      cases resE with
      | error e =>
        simp only [] at hc
        refine Or.inl ?_
        have := ensureTeam_trace s parentName pid (pfx ++ ig.name) c (by rw [he]; exact hc)
        exact this
      | ok q =>
        rcases q with ⟨sA, team⟩
        simp only [] at hc
        cases hu : useRidOf s ig.id with
        | none =>
          rw [hu] at hc
          simp only [List.mem_append, List.mem_singleton] at hc
          rcases hc with hc | hc
          · exact Or.inl (ensureTeam_trace s parentName pid (pfx ++ ig.name) c
              (by rw [he]; exact hc))
          · exact Or.inr ⟨team.id, by rw [hc]⟩
        | some rid =>
          rw [hu] at hc
          simp only [List.mem_append, List.mem_singleton] at hc
          rcases hc with hc | hc
          · exact Or.inl (ensureTeam_trace s parentName pid (pfx ++ ig.name) c
              (by rw [he]; exact hc))
          · exact Or.inr ⟨team.id, by rw [hc]⟩

theorem phase1_trace (cl : Bool) (pfx parentName : String) (pid : Nat) (skip : List String) :
    ∀ (igs : List IGroup) (s : RemoteState) (tm : TeamMap),
    ∀ c ∈ (phase1 cl pfx parentName pid skip s tm igs).1,
    ∃ ig2, ig2 ∈ igs ∧ ig2.name ∉ skip
      ∧ (c = Call.createTeam (pfx ++ ig2.name) pid
         ∨ ∃ tid, c = Call.teamRoleAssoc tid (useRidOf s ig2.id)) := by
  intro igs
  induction igs with
  | nil => intro s tm c hc; cases hc
  | cons ig rest ih =>
    intro s tm c hc
    rw [phase1] at hc
    by_cases hskip : ig.name ∈ skip
    · rw [if_pos hskip] at hc
      obtain ⟨ig2, h1, h2, h3⟩ := ih s tm c hc
      exact ⟨ig2, List.mem_cons_of_mem _ h1, h2, h3⟩
    · rw [if_neg hskip] at hc
      cases hp : processIG cl pfx parentName pid s tm ig with
      | mk trP resP =>
        rw [hp] at hc
        cases resP with
        | error e =>
          simp only [] at hc
          obtain h3 := processIG_trace cl pfx parentName pid s tm ig c (by rw [hp]; exact hc)
          exact ⟨ig, List.mem_cons_self _ _, hskip, h3⟩
        | ok q =>
          rcases q with ⟨sA, tmA⟩
          simp only [List.mem_append] at hc
          rcases hc with hc | hc
          · obtain h3 := processIG_trace cl pfx parentName pid s tm ig c (by rw [hp]; exact hc)
            exact ⟨ig, List.mem_cons_self _ _, hskip, h3⟩
          · obtain ⟨ig2, h1, h2, h3⟩ := ih sA tmA c hc
            obtain ⟨rid, team, _, _, _, _, hframe, _⟩ :=
              processIG_ok cl pfx parentName pid s tm ig trP sA tmA hp
            rw [useRidOf_congr s sA hframe.2.1 ig2.id] at h3
            exact ⟨ig2, List.mem_cons_of_mem _ h1, h2, h3⟩

theorem phase1_keys_from (cl : Bool) (pfx parentName : String) (pid : Nat)
    (skip : List String) :
    ∀ (igs : List IGroup) (s : RemoteState) (tm : TeamMap) (TR : Trace)
      (sMid : RemoteState) (tmOut : TeamMap),
    phase1 cl pfx parentName pid skip s tm igs = (TR, .ok (sMid, tmOut)) →
    ∀ k ∈ tmOut.map Prod.fst,
    k ∈ tm.map Prod.fst ∨ ∃ ig2 ∈ igs, ig2.name ∉ skip ∧ k = pfx ++ ig2.name := by
  intro igs
  induction igs with
  | nil =>
    intro s tm TR sMid tmOut h k hk
    simp only [phase1, Prod.mk.injEq, Except.ok.injEq] at h
    rw [← h.2.2] at hk
    exact Or.inl hk
  | cons ig rest ih =>
    intro s tm TR sMid tmOut h k hk
    rw [phase1] at h
    by_cases hskip : ig.name ∈ skip
    · rw [if_pos hskip] at h
      rcases ih s tm TR sMid tmOut h k hk with h2 | ⟨ig2, h2, h3, h4⟩
      · exact Or.inl h2
      · exact Or.inr ⟨ig2, List.mem_cons_of_mem _ h2, h3, h4⟩
    · rw [if_neg hskip] at h
      cases hp : processIG cl pfx parentName pid s tm ig with
      | mk trP resP =>
        rw [hp] at h
        cases resP with
        | error e => simp at h
        | ok q =>
          rcases q with ⟨sA, tmA⟩
          simp only [] at h
          cases hrec : phase1 cl pfx parentName pid skip sA tmA rest with
          | mk trR resR =>
            rw [hrec] at h
            simp only [Prod.mk.injEq] at h
            rw [h.2] at hrec
            rcases ih sA tmA trR sMid tmOut hrec k hk with h2 | ⟨ig2, h2, h3, h4⟩
            · obtain ⟨rid, team, _, _, htmA, _, _, _⟩ :=
                processIG_ok cl pfx parentName pid s tm ig trP sA tmA hp
              rw [htmA, tmInsert_keys] at h2
              by_cases hm : (pfx ++ ig.name) ∈ tm.map Prod.fst
              · rw [if_pos hm] at h2
                exact Or.inl h2
              · rw [if_neg hm, List.mem_append, List.mem_singleton] at h2
                rcases h2 with h2 | h2
                · exact Or.inl h2
                · exact Or.inr ⟨ig, List.mem_cons_self _ _, hskip, h2⟩
            · exact Or.inr ⟨ig2, List.mem_cons_of_mem _ h2, h3, h4⟩

/-! ### C6 — skip-list honored. -/

/-- C6: for an instance group whose name is in the configured skip-list
(and whose Use role id is, as on a real controller, not shared with any
retained group's Use role or any team's Member role), the whole run issues
no create for its backing-team name and no mutating call carrying its Use
role id, and the registry never records an entry under its team name. -/
theorem skip_list_honored (cfg : Config) (s0 : RemoteState) (ig : IGroup) (r : Nat)
    (hig : ig ∈ s0.igs) (hskip : ig.name ∈ cfg.skipList)
    (hr : useRidOf s0 ig.id = some r)
    (hOnly : ∀ ig2 ∈ s0.igs, ig2.name ∉ cfg.skipList → useRidOf s0 ig2.id ≠ some r)
    (hMem : ∀ tid : Nat, memberRidOf s0 tid ≠ some r) :
    (∀ c ∈ (sync cfg s0).1,
      (∀ oid : Nat, c ≠ Call.createTeam (cfg.teamPfx ++ ig.name) oid)
      ∧ (∀ tid : Nat, c ≠ Call.teamRoleAssoc tid (some r))
      ∧ (∀ u : Nat, c ≠ Call.userRoleAssoc u (some r)
          ∧ c ≠ Call.userRoleDisassoc u (some r)))
    ∧ ∀ (pid : Nat) (TR : Trace) (sMid : RemoteState) (tm : TeamMap),
        phase1 cfg.cleanupUseRole cfg.teamPfx cfg.parentOrganization pid cfg.skipList
          s0 [] s0.igs = (TR, .ok (sMid, tm)) →
        (cfg.teamPfx ++ ig.name) ∉ tm.map Prod.fst := by
  have hph1call : ∀ (pid : Nat) (c : Call),
      (∃ ig2, ig2 ∈ s0.igs ∧ ig2.name ∉ cfg.skipList
        ∧ (c = Call.createTeam (cfg.teamPfx ++ ig2.name) pid
           ∨ ∃ tid, c = Call.teamRoleAssoc tid (useRidOf s0 ig2.id))) →
      (∀ oid : Nat, c ≠ Call.createTeam (cfg.teamPfx ++ ig.name) oid)
      ∧ (∀ tid : Nat, c ≠ Call.teamRoleAssoc tid (some r))
      ∧ (∀ u : Nat, c ≠ Call.userRoleAssoc u (some r)
          ∧ c ≠ Call.userRoleDisassoc u (some r)) := by
    intro pid c hc
    obtain ⟨ig2, hmem2, hns2, hshape⟩ := hc
    rcases hshape with rfl | ⟨tid, rfl⟩
    · refine ⟨?_, ?_, ?_⟩
      · intro oid h
        injection h with h1 h2
        have h3 := string_append_cancel cfg.teamPfx ig2.name ig.name h1
        rw [h3] at hns2
        exact hns2 hskip
      · intro tid h
        cases h
      · intro u
        exact ⟨(by intro h; cases h), (by intro h; cases h)⟩
    · refine ⟨?_, ?_, ?_⟩
      · intro oid h
        cases h
      · intro tid2 h
        injection h with h1 h2
        exact hOnly ig2 hmem2 hns2 h2
      · intro u
        exact ⟨(by intro h; cases h), (by intro h; cases h)⟩
  have hph3call : ∀ (sMid : RemoteState) (c : Call),
      sMid.teamObjectRoles = s0.teamObjectRoles →
      (∃ u tid, c = Call.userRoleAssoc u (memberRidOf sMid tid)
        ∨ c = Call.userRoleDisassoc u (memberRidOf sMid tid)) →
      (∀ oid : Nat, c ≠ Call.createTeam (cfg.teamPfx ++ ig.name) oid)
      ∧ (∀ tid : Nat, c ≠ Call.teamRoleAssoc tid (some r))
      ∧ (∀ u : Nat, c ≠ Call.userRoleAssoc u (some r)
          ∧ c ≠ Call.userRoleDisassoc u (some r)) := by
    intro sMid c htor hc
    obtain ⟨u, tid, hshape⟩ := hc
    have hmr : memberRidOf sMid tid ≠ some r := by
      rw [memberRidOf_congr s0 sMid htor tid]
      exact hMem tid
    rcases hshape with rfl | rfl
    · refine ⟨?_, ?_, ?_⟩
      · intro oid h
        cases h
      · intro tid2 h
        cases h
      · intro u2
        refine ⟨?_, ?_⟩
        · intro h
          injection h with h1 h2
          exact hmr h2
        · intro h
          cases h
    · refine ⟨?_, ?_, ?_⟩
      · intro oid h
        cases h
      · intro tid2 h
        cases h
      · intro u2
        refine ⟨?_, ?_⟩
        · intro h
          cases h
        · intro h
          injection h with h1 h2
          exact hmr h2
  constructor
  · intro c hc
    unfold sync at hc
    cases hporg : s0.orgs.find? (fun o => decide (o.name = cfg.parentOrganization)) with
    | none => rw [hporg] at hc; cases hc
    | some org =>
      rw [hporg] at hc
      simp only [] at hc
      cases hph1 : phase1 cfg.cleanupUseRole cfg.teamPfx cfg.parentOrganization org.id
          cfg.skipList s0 [] s0.igs with
      | mk tr1 res1 =>
        rw [hph1] at hc
        cases res1 with
        | error e =>
          simp only [] at hc
          exact hph1call org.id c (phase1_trace cfg.cleanupUseRole cfg.teamPfx
            cfg.parentOrganization org.id cfg.skipList s0.igs s0 [] c (by rw [hph1]; exact hc))
        | ok q =>
          rcases q with ⟨sMid, tm⟩
          simp only [] at hc
          cases hph3 : phase3 (phase2 sMid.orgRoleUsers cfg.allowedRoles tm sMid.orgs)
              sMid none tm with
          | mk tr3 res3 =>
            rw [hph3] at hc
            simp only [List.mem_append] at hc
            rcases hc with hc | hc
            · exact hph1call org.id c (phase1_trace cfg.cleanupUseRole cfg.teamPfx
                cfg.parentOrganization org.id cfg.skipList s0.igs s0 [] c
                (by rw [hph1]; exact hc))
            · have hfr : Phase1Frame s0 sMid :=
                phase1_frame cfg.cleanupUseRole cfg.teamPfx cfg.parentOrganization org.id
                  cfg.skipList s0.igs s0 [] tr1 sMid tm hph1
              exact hph3call sMid c hfr.2.2.1
                (phase3_trace _ tm sMid none c (by rw [hph3]; exact hc))
  · intro pid TR sMid tm hph1 hk
    rcases phase1_keys_from cfg.cleanupUseRole cfg.teamPfx cfg.parentOrganization pid
      cfg.skipList s0.igs s0 [] TR sMid tm hph1 _ hk with h2 | ⟨ig2, hmem2, hns2, hEq⟩
    · cases h2
    · have := string_append_cancel cfg.teamPfx ig.name ig2.name hEq
      rw [← this] at hns2
      exact hns2 hskip

/-- C6 witness: on the fixture with the skip-listed group "default" (Use
role 41), the run issues no call touching it and its team name never enters
the registry. -/
theorem skip_list_honored_witness :
    (∀ c ∈ (sync {} stateWithSkipped).1,
      (∀ oid : Nat,
        c ≠ Call.createTeam (({} : Config).teamPfx ++ (⟨2, "default"⟩ : IGroup).name) oid)
      ∧ (∀ tid : Nat, c ≠ Call.teamRoleAssoc tid (some 41))
      ∧ (∀ u : Nat, c ≠ Call.userRoleAssoc u (some 41)
          ∧ c ≠ Call.userRoleDisassoc u (some 41)))
    ∧ ∀ (pid : Nat) (TR : Trace) (sMid : RemoteState) (tm : TeamMap),
        phase1 ({} : Config).cleanupUseRole ({} : Config).teamPfx
          ({} : Config).parentOrganization pid ({} : Config).skipList
          stateWithSkipped [] stateWithSkipped.igs = (TR, .ok (sMid, tm)) →
        (({} : Config).teamPfx ++ (⟨2, "default"⟩ : IGroup).name) ∉ tm.map Prod.fst := by
  have hMem : ∀ tid : Nat, memberRidOf stateWithSkipped tid ≠ some 41 := by
    intro tid h
    by_cases hb : tid = 1
    · subst hb
      rw [show memberRidOf stateWithSkipped 1 = some 50 from rfl] at h
      injection h with h2
      omega
    · unfold memberRidOf at h
      rw [show stateWithSkipped.teamObjectRoles tid = [] from if_neg hb] at h
      simp at h
  exact skip_list_honored {} stateWithSkipped ⟨2, "default"⟩ 41 (by decide) (by decide)
    rfl (by decide) hMem

/-- C10 witness: with no organization record for the configured parent, the
created team is not found again and the builder crashes. -/
theorem post_create_refetch_unguarded_witness :
    ensureTeam
        { igs := [], igObjectRoles := fun _ => [], teams := [],
          teamObjectRoles := fun _ => [], roleHolders := fun _ => [],
          orgs := [], orgRoleUsers := fun _ _ => [], nextTeamId := 0 }
        "ADMIN-AREA" 7 "t-IG-USE-east" =
      ([.createTeam "t-IG-USE-east" 7], .error .noneSubscript) :=
  post_create_refetch_unguarded _ 7 "t-IG-USE-east" "ADMIN-AREA" (by rfl) (by rfl)

end AwxSync
